import Mathlib

/-!
# Verification of the inscriptis layout and rendering engine

This file gives a shallow embedding of the core of the `inscriptis`
HTML-to-text engine (the four source files `model/canvas.py`,
`model/html_element.py`, `html_engine.py` and `annotation/parser.py`)
and proves or refutes the specification claims about it.

Components of the repository that the claims depend on but whose source
is not part of the shown core (the `Block`, `Prefix`, `Table`,
`TableCell` classes, the default style profile and the parser
configuration) are modelled from the specification; each such definition
carries a doc comment starting with `Modelled from the spec:`.
The external `html.unescape` collaborator is modelled as the identity:
all documents considered contain no character references.
-/

namespace Inscriptis

/-- `Display` strategies of `html_properties.py` used by the core. -/
inductive Display where
  | none
  | inline
  | block
deriving DecidableEq, Repr

/-- Whitespace handling strategies of `html_properties.py`. -/
inductive WhiteSpace where
  | normal
  | pre
deriving DecidableEq, Repr

/-- Horizontal alignment of a table cell. -/
inductive HAlign where
  | left
  | right
  | center
deriving DecidableEq, Repr

/-- Vertical alignment of a table cell. -/
inductive VAlign where
  | top
  | middle
  | bottom
deriving DecidableEq, Repr

/-- An annotation span `(start_idx, end_idx, label)` over the final text
(named `Annotation` in `annotation/__init__.py`). -/
structure Annot where
  start_idx : Nat
  end_idx : Nat
  label : String
deriving DecidableEq, Repr

/-- A run of `n` space characters. -/
def spaces (n : Nat) : String := String.mk (List.replicate n ' ')

/-- Split a character list at every occurrence of `sep` (kernel-
reducible counterpart of Python's `str.split(sep)` for a one-character
separator). -/
def splitOnChar (sep : Char) : List Char → List (List Char)
  | [] => [[]]
  | c :: rest =>
    let r := splitOnChar sep rest
    if c = sep then [] :: r
    else
      match r with
      | [] => [[c]]
      | h :: t => (c :: h) :: t

/-- Python `key.split(sep)` for a one-character separator. -/
def strSplitOn (sep : Char) (s : String) : List String :=
  (splitOnChar sep s.toList).map (fun l => String.mk l)

/-- Python `sep in s` for a single character. -/
def strContains (sep : Char) (s : String) : Bool := s.toList.contains sep

/-- Split a character list at whitespace runs. -/
def splitWsChar : List Char → List (List Char)
  | [] => [[]]
  | c :: rest =>
    let r := splitWsChar rest
    if c.isWhitespace then [] :: r
    else
      match r with
      | [] => [[c]]
      | h :: t => (c :: h) :: t

/-- Python `str.replace('\n', '\n' + ins)`: re-indent every line
break (kernel-reducible counterpart used by the `pre` merge). -/
def replaceNl (s : String) (ins : String) : String :=
  String.mk (s.toList.flatMap fun ch =>
    if ch = '\n' then '\n' :: ins.toList else [ch])

/-- Python `str.strip()`: drop leading and trailing whitespace. -/
def trimStr (s : String) : String :=
  String.mk
    (((s.toList.dropWhile Char.isWhitespace).reverse.dropWhile
        Char.isWhitespace).reverse)

/-- Modelled from the spec: the `Prefix` stack of `model/prefix.py`
(missing from the shown core).  An ordered sequence of
(padding width, bullet-or-padding string) entries, one per open block
ancestor; the current render prefix is the concatenation of all entries
with the top entry's bullet substituted for the padding on its first
line only (tracked by the `consumed` flag). -/
structure PrefixStack where
  paddings : List Nat
  bullets : List String
  consumed : Bool
deriving DecidableEq, Repr

def PrefixStack.init : PrefixStack := ⟨[], [], false⟩

/-- Push one (padding, bullet) entry; a fresh entry makes the bullet
renderable on the next first line. -/
def PrefixStack.register (p : PrefixStack) (padding : Nat) (bullet : String) :
    PrefixStack :=
  { paddings := p.paddings ++ [padding]
    bullets := p.bullets ++ [bullet]
    consumed := false }

def PrefixStack.removeLast (p : PrefixStack) : PrefixStack :=
  { p with paddings := p.paddings.dropLast, bullets := p.bullets.dropLast }

def PrefixStack.currentPadding (p : PrefixStack) : Nat := p.paddings.sum

/-- The prefix rendered on continuation lines: pure padding. -/
def PrefixStack.rest (p : PrefixStack) : String := spaces p.currentPadding

/-- The prefix rendered on the first line of a block: the padding with
the top bullet substituted at its end, consumed afterwards. -/
def PrefixStack.takeFirst (p : PrefixStack) : String × PrefixStack :=
  if p.consumed then (p.rest, p)
  else
    let bullet := p.bullets.getLastD ""
    (spaces (p.currentPadding - bullet.length) ++ bullet,
     { p with consumed := true })

/-- Modelled from the spec: the `Block` of `model/block.py` (missing
from the shown core).  An ordered run of merged text not yet flushed,
plus `idx`, the count of characters committed so far (offset anchor for
annotations), the active prefix stack, and the whitespace-collapse
state. -/
structure Block where
  idx : Nat
  pref : PrefixStack
  content : String
  collapsable : Bool
deriving DecidableEq, Repr

def Block.initial : Block :=
  { idx := 0, pref := PrefixStack.init, content := "", collapsable := true }

def Block.isEmpty (b : Block) : Bool := b.content = ""

/-- A fresh in-progress block after the current one is committed; the
committed block costs its length plus one (the joining line break). -/
def Block.newBlock (b : Block) : Block :=
  { idx := b.idx + 1, pref := b.pref, content := "", collapsable := true }

/-- Collapse runs of whitespace to single spaces, dropping leading
whitespace when the previous character was already collapsable. -/
def collapseChars (coll : Bool) (cs : List Char) : List Char × Bool :=
  match cs with
  | [] => ([], coll)
  | c :: rest =>
    if c.isWhitespace then
      let (out, coll') := collapseChars true rest
      if coll then (out, coll') else (' ' :: out, coll')
    else
      let (out, coll') := collapseChars false rest
      (c :: out, coll')

/-- Merge text into the block under `normal` whitespace handling. -/
def Block.mergeNormal (b : Block) (text : String) : Block :=
  let (out, coll) := collapseChars b.collapsable text.toList
  if out.isEmpty then { b with collapsable := coll }
  else
    let (pfx, pref') :=
      if b.content = "" then b.pref.takeFirst else ("", b.pref)
    let t := pfx ++ String.mk out
    { idx := b.idx + t.length, pref := pref', content := b.content ++ t,
      collapsable := coll }

/-- Merge text into the block under `pre` whitespace handling: preserve
it verbatim, re-indenting embedded line breaks with the rest prefix. -/
def Block.mergePre (b : Block) (text : String) : Block :=
  let (pfx, pref') :=
    if b.content = "" then b.pref.takeFirst else ("", b.pref)
  let t := pfx ++ replaceNl text pref'.rest
  { idx := b.idx + t.length, pref := pref', content := b.content ++ t,
    collapsable := false }

def Block.merge (b : Block) (text : String) (ws : WhiteSpace) : Block :=
  match ws with
  | WhiteSpace.pre => b.mergePre text
  | WhiteSpace.normal => b.mergeNormal text

/-! ## HtmlElement (`model/html_element.py`)

The runtime `HtmlElement` value.  The Python object holds a reference to
its canvas; reference aliasing is embedded by an arena of canvases
(`EngineState.arena` below) and `canvasId` indexes into it.  `uid` is a
unique identity assigned when the element is created, standing in for
Python's hash-by-identity used by `Canvas._open_annotations`.
The Python attributes `prefix`, `suffix` and `annotation` are named
`prefixText`, `suffixText` and `annotations` here. -/

structure Elem where
  uid : Nat
  canvasId : Nat
  tag : String
  prefixText : String
  suffixText : String
  display : Display
  margin_before : Nat
  margin_after : Nat
  padding_inline : Nat
  list_bullet : String
  whitespace : Option WhiteSpace
  limit_whitespace_affixes : Bool
  align : HAlign
  valign : VAlign
  annotations : List String
  previous_margin_after : Nat
deriving DecidableEq, Repr

/-- `DEFAULT_HTML_ELEMENT`: the universal default element. -/
def defaultElem : Elem :=
  { uid := 0
    canvasId := 0
    tag := "default"
    prefixText := ""
    suffixText := ""
    display := Display.inline
    margin_before := 0
    margin_after := 0
    padding_inline := 0
    list_bullet := ""
    whitespace := Option.none
    limit_whitespace_affixes := false
    align := HAlign.left
    valign := VAlign.middle
    annotations := []
    previous_margin_after := 0 }

/-- Python `str.isspace()`: true iff non-empty and all whitespace. -/
def isSpaceStr (s : String) : Bool :=
  s ≠ "" && s.toList.all Char.isWhitespace

/-- `HtmlElement.get_refined_html_element`: refine the `new0` element
against its `parent` context.  The parent's canvas is inherited; a
`display:none` parent forces `display:none` and stops; otherwise unset
whitespace is inherited, whitespace-only affixes are blanked inside
`pre` regions when requested, and `previous_margin_after` receives the
parent's `margin_after` when both are block elements. -/
def Elem.refine (parent : Elem) (new0 : Elem) : Elem :=
  let new1 := { new0 with canvasId := parent.canvasId }
  if parent.display = Display.none then
    { new1 with display := Display.none }
  else
    let new2 := { new1 with
      whitespace := match new1.whitespace with
        | some w => some w
        | Option.none => parent.whitespace }
    let new3 :=
      if new2.limit_whitespace_affixes ∧
          parent.whitespace = some WhiteSpace.pre then
        { new2 with
          prefixText := if isSpaceStr new2.prefixText then "" else new2.prefixText
          suffixText := if isSpaceStr new2.suffixText then "" else new2.suffixText }
      else new2
    if new3.display = Display.block ∧ parent.display = Display.block then
      { new3 with previous_margin_after := parent.margin_after }
    else new3

/-! ## Canvas (`model/canvas.py`)

The text canvas.  `openAnnots` is the `_open_annotations` map, an
association list from element `uid` to the committed index recorded at
tag open (Python dict semantics: insertion replaces an existing key,
iteration order is irrelevant because only lookup/pop are used). -/

structure Canvas where
  margin : Nat
  current_block : Block
  blocks : List String
  annotations : List Annot
  openAnnots : List (Nat × Nat)
deriving DecidableEq, Repr

namespace Canvas

/-- `Canvas.__init__`: margin starts at the sentinel 1000. -/
def init : Canvas :=
  { margin := 1000
    current_block := Block.initial
    blocks := []
    annotations := []
    openAnnots := [] }

/-- Dict insertion: replace the value at an existing key, else append. -/
def insertA (u : Nat) (v : Nat) : List (Nat × Nat) → List (Nat × Nat)
  | [] => [(u, v)]
  | (k, w) :: rest =>
    if k = u then (k, v) :: rest else (k, w) :: insertA u v rest

/-- Dict pop: remove the (first) entry at a key. -/
def eraseA (u : Nat) : List (Nat × Nat) → List (Nat × Nat)
  | [] => []
  | (k, w) :: rest => if k = u then rest else (k, w) :: eraseA u rest

/-- Dict lookup. -/
def lookupA (u : Nat) : List (Nat × Nat) → Option Nat
  | [] => Option.none
  | (k, w) :: rest => if k = u then some w else lookupA u rest

/-- `Canvas._flush_inline`: commit the pending block if it has content,
resetting the running margin to zero; report whether a flush happened. -/
def flushInline (c : Canvas) : Canvas × Bool :=
  if c.current_block.isEmpty then (c, false)
  else
    ({ c with
        blocks := c.blocks ++ [c.current_block.content]
        current_block := c.current_block.newBlock
        margin := 0 }, true)

/-- `Canvas.open_block`: flush pending inline content, push the
element's prefix entry, and emit the missing part of the required
margin (`max(previous_margin_after, margin_before)`) as blank lines. -/
def openBlock (e : Elem) (c : Canvas) : Canvas :=
  let c := (flushInline c).1
  let c := { c with current_block :=
    { c.current_block with
        pref := c.current_block.pref.register e.padding_inline e.list_bullet } }
  let required := max e.previous_margin_after e.margin_before
  if required > c.margin then
    { c with
        current_block :=
          { c.current_block with
              idx := c.current_block.idx + (required - c.margin) }
        blocks := c.blocks ++ [String.mk (List.replicate (required - c.margin - 1) '\n')]
        margin := required }
  else c

/-- `Canvas.close_block`: emit the element's bottom margin. -/
def closeBlock (e : Elem) (c : Canvas) : Canvas :=
  if e.margin_after > c.margin then
    { c with
        current_block :=
          { c.current_block with
              idx := c.current_block.idx + (e.margin_after - c.margin) }
        blocks := c.blocks ++ [String.mk (List.replicate (e.margin_after - c.margin - 1) '\n')]
        margin := e.margin_after }
  else c

/-- `Canvas.open_tag`: remember the committed index for an annotated
element, then open a block for block elements. -/
def openTag (e : Elem) (c : Canvas) : Canvas :=
  let c :=
    if e.annotations ≠ [] then
      { c with openAnnots := insertA e.uid c.current_block.idx c.openAnnots }
    else c
  if e.display = Display.block then openBlock e c else c

/-- `Canvas.close_tag`: close the block (flush, pop prefix, bottom
margin) for block elements, then pop the open-annotation record and,
unless the span is empty, record one annotation per label. -/
def closeTag (e : Elem) (c : Canvas) : Canvas :=
  let c :=
    if e.display = Display.block then
      let c := (flushInline c).1
      let c := { c with current_block :=
        { c.current_block with pref := c.current_block.pref.removeLast } }
      closeBlock e c
    else c
  match lookupA e.uid c.openAnnots with
  | Option.none => c
  | some start =>
    let c := { c with openAnnots := eraseA e.uid c.openAnnots }
    if start = c.current_block.idx then c
    else
      { c with annotations := c.annotations ++
          e.annotations.map (fun l => ⟨start, c.current_block.idx, l⟩) }

/-- `Canvas.write`: merge text into the current block, honoring the
override or the element's whitespace mode (`normal` when unset). -/
def write (e : Elem) (text : String) (ws : Option WhiteSpace) (c : Canvas) :
    Canvas :=
  let mode :=
    match ws with
    | some w => w
    | Option.none => e.whitespace.getD WhiteSpace.normal
  { c with current_block := c.current_block.merge text mode }

/-- `Canvas.write_newline`: flush the pending content; if there was
nothing to flush, append an explicitly empty block. -/
def writeNewline (c : Canvas) : Canvas :=
  let (c', flushed) := flushInline c
  if flushed then c'
  else
    { c' with
        blocks := c'.blocks ++ [""]
        current_block := c'.current_block.newBlock }

/-- `Canvas.get_text`: flush and join the committed blocks with line
breaks (`html.unescape` modelled as identity). -/
def getText (c : Canvas) : String :=
  String.intercalate "\n" ((flushInline c).1.blocks)

end Canvas

/-! ## Table model (`model/table.py`, not part of the shown core) -/

/-- Modelled from the spec: a table cell owns its own private canvas
(referenced through the arena) plus its alignment. -/
structure TableCell where
  canvasId : Nat
  align : HAlign
  valign : VAlign
deriving DecidableEq, Repr

/-- Modelled from the spec: a table owns an ordered sequence of rows of
cells, plus the `td_is_open` flag maintained by the engine. -/
structure Table where
  rows : List (List TableCell)
  td_is_open : Bool
deriving DecidableEq, Repr

def Table.init : Table := ⟨[], false⟩

/-- Modelled from the spec: append a new (empty) row. -/
def Table.addRow (t : Table) : Table := { t with rows := t.rows ++ [[]] }

/-- Modelled from the spec: append a cell to the current row, creating
a first row when a stray cell appears before any row. -/
def Table.addCell (t : Table) (cell : TableCell) : Table :=
  match t.rows.getLast? with
  | Option.none => { t with rows := [[cell]] }
  | some r => { t with rows := t.rows.dropLast ++ [r ++ [cell]] }

/-- The rendered text of a cell: its private canvas, flushed. -/
def cellText (arena : List Canvas) (cell : TableCell) : String :=
  (arena.getD cell.canvasId Canvas.init).getText

/-- Pad a cell's text to the column width per its alignment. -/
def padCell (a : HAlign) (w : Nat) (s : String) : String :=
  let d := w - s.length
  match a with
  | HAlign.left => s ++ spaces d
  | HAlign.right => spaces d ++ s
  | HAlign.center => spaces (d / 2) ++ s ++ spaces (d - d / 2)

/-- The number of leading pad spaces `padCell` puts before the text. -/
def padLead (a : HAlign) (w : Nat) (s : String) : Nat :=
  match a with
  | HAlign.left => 0
  | HAlign.right => w - s.length
  | HAlign.center => (w - s.length) / 2

/-- Modelled from the spec: column widths are the maximum rendered
width among the column's cells. -/
def colWidths (texts : List (List String)) : List Nat :=
  let ncols := (texts.map List.length).foldr max 0
  (List.range ncols).map fun j =>
    (texts.map fun row => (row.getD j "").length).foldr max 0

/-- One grid row: cells padded to their column widths, two spaces
between columns. -/
def renderRow (widths : List Nat) (aligns : List HAlign) (row : List String) :
    String :=
  String.intercalate "  "
    ((List.range row.length).map fun j =>
      padCell (aligns.getD j HAlign.left) (widths.getD j 0) (row.getD j ""))

/-- Modelled from the spec: `Table.get_text` lays the cells into a
grid (maximum content width per column, alignment padding, two spaces
between columns, rows joined with line breaks). -/
def Table.getText (arena : List Canvas) (t : Table) : String :=
  let texts := t.rows.map fun row => row.map (cellText arena)
  let aligns := t.rows.map fun row => row.map TableCell.align
  let widths := colWidths texts
  String.intercalate "\n"
    ((texts.zip aligns).map fun (row, al) => renderRow widths al row)

/-- The offset, within the rendered grid, at which each cell's own text
begins (row offsets accumulate rendered row lengths plus the joining
line break; column offsets accumulate padded widths plus separators,
plus any leading alignment padding). -/
def Table.cellStarts (arena : List Canvas) (t : Table) :
    List (TableCell × Nat) :=
  let texts := t.rows.map fun row => row.map (cellText arena)
  let aligns := t.rows.map fun row => row.map TableCell.align
  let widths := colWidths texts
  let rowTexts := (texts.zip aligns).map fun (row, al) => renderRow widths al row
  (t.rows.enum.map fun (i, row) =>
    let rowOff := ((rowTexts.take i).map fun r => r.length + 1).sum
    row.enum.map fun (j, cell) =>
      let colOff := ((widths.take j).map (· + 2)).sum
      let lead := padLead cell.align (widths.getD j 0)
        ((texts.getD i []).getD j "")
      (cell, rowOff + colOff + lead)).flatten

/-- Modelled from the spec: `Table.get_annotations(idx)` translates
every annotation recorded in a cell's private canvas by the cell's
offset inside the grid plus the insertion index `idx`. -/
def Table.getAnnots (arena : List Canvas) (t : Table) (idx : Nat) :
    List Annot :=
  ((t.cellStarts arena).map fun (cell, off) =>
      ((arena.getD cell.canvasId Canvas.init).flushInline.1.annotations).map
        fun a => Annot.mk (a.start_idx + off + idx) (a.end_idx + off + idx) a.label).flatten

/-! ## The traversal driver (`html_engine.py`) -/

mutual
/-- An input tree node: either a tagged element with attributes, text,
children and tail text, or a node whose tag is not a string (comment /
processing instruction), of which only the tail is retained. -/
inductive Node where
  | elem (tag : String) (attrs : List (String × String)) (text : String)
      (children : NodeList) (tail : String)
  | comment (tail : String)
inductive NodeList where
  | nil
  | cons (n : Node) (rest : NodeList)
end

/-- An entry of `li_counter`: an ordered list's integer counter or an
unordered list's bullet glyph. -/
inductive LiC where
  | num (n : Nat)
  | glyph (s : String)
deriving DecidableEq, Repr

/-- Modelled from the spec: the recognized `ParserConfig` options. -/
structure Config where
  display_links : Bool
  display_anchors : Bool
  display_images : Bool
  deduplicate_captions : Bool
deriving DecidableEq, Repr

/-- Modelled from the spec: anchor parsing is enabled when link targets
or anchors are displayed. -/
def Config.parseA (c : Config) : Bool := c.display_links || c.display_anchors

def Config.default : Config := ⟨false, false, false, false⟩

/-- A style profile: tag name to default element, unknown tags falling
back to `defaultElem`. -/
abbrev Css := List (String × Elem)

def cssGet (css : Css) (tag : String) : Elem :=
  (css.lookup tag).getD defaultElem

/-- The engine context: configuration and style profile (both external
collaborators supplied to the core; attribute post-processing is
modelled as the identity). -/
structure Ctx where
  cfg : Config
  css : Css

/-- The full mutable state of one `Inscriptis` traversal.  Python's
canvas references are embedded as indices into `arena`; slot 0 is the
main document canvas. -/
structure EngineState where
  arena : List Canvas
  tags : List Elem
  tables : List Table
  li_counter : List LiC
  li_level : Nat
  last_caption : Option String
  link_target : String
  nextUid : Nat
deriving DecidableEq, Repr

namespace EngineState

def getCanvas (s : EngineState) (i : Nat) : Canvas :=
  s.arena.getD i Canvas.init

def setCanvas (s : EngineState) (i : Nat) (c : Canvas) : EngineState :=
  { s with arena := s.arena.set i c }

def topTag (s : EngineState) : Elem := s.tags.getLastD defaultElem

def modifyTop (s : EngineState) (f : Elem → Elem) : EngineState :=
  { s with tags := s.tags.dropLast ++ [f s.topTag] }

def lastTable (s : EngineState) : Table := s.tables.getLastD Table.init

def modifyLastTable (s : EngineState) (f : Table → Table) : EngineState :=
  { s with tables := s.tables.dropLast ++ [f s.lastTable] }

end EngineState

/-- Apply an operation to the canvas an element refers to. -/
def onCanvas (e : Elem) (f : Canvas → Canvas) (s : EngineState) :
    EngineState :=
  s.setCanvas e.canvasId (f (s.getCanvas e.canvasId))

/-- `HtmlElement.write`: no-op on empty text or `display:none`,
otherwise write prefix + text + suffix to the element's canvas. -/
def ewrite (e : Elem) (text : String) (s : EngineState) : EngineState :=
  if text = "" ∨ e.display = Display.none then s
  else onCanvas e
    (Canvas.write e (e.prefixText ++ text ++ e.suffixText) Option.none) s

/-- `HtmlElement.write_tail`: same guard, then delegates to `write`. -/
def ewriteTail (e : Elem) (text : String) (s : EngineState) : EngineState :=
  if text = "" ∨ e.display = Display.none then s else ewrite e text s

/-- `HtmlElement.write_verbatim_text`: no-op on empty text; block
elements open and close a block around a `pre`-mode write. -/
def writeVerbatim (e : Elem) (text : String) (s : EngineState) :
    EngineState :=
  if text = "" then s
  else
    let s := if e.display = Display.block then onCanvas e (Canvas.openBlock e) s else s
    let s := onCanvas e (Canvas.write e text (some WhiteSpace.pre)) s
    if e.display = Display.block then onCanvas e (Canvas.closeBlock e) s else s

/-- `Inscriptis.UL_COUNTER`: the four unordered-list bullet glyphs. -/
def ulGlyphs : List String := ["* ", "+ ", "o ", "- "]

/-- `Inscriptis.get_bullet`: the glyph for a given index, cycling. -/
def getBullet (index : Nat) : String := ulGlyphs.getD (index % 4) "* "

/-- `Inscriptis._start_ul`: raise the nesting level and push the glyph
for the previous level (the new depth `d` uses glyph index `d - 1`). -/
def startUl (s : EngineState) : EngineState :=
  { s with
      li_level := s.li_level + 1
      li_counter := s.li_counter ++ [LiC.glyph (getBullet s.li_level)] }

/-- `Inscriptis._end_ul` / `_end_ol`. -/
def endUl (s : EngineState) : EngineState :=
  { s with li_level := s.li_level - 1, li_counter := s.li_counter.dropLast }

/-- `Inscriptis._end_ol` (identical to `_end_ul`). -/
def endOl (s : EngineState) : EngineState :=
  { s with li_level := s.li_level - 1, li_counter := s.li_counter.dropLast }

/-- `Inscriptis._start_ol`: push the counter 1 and raise the level. -/
def startOl (s : EngineState) : EngineState :=
  { s with
      li_counter := s.li_counter ++ [LiC.num 1]
      li_level := s.li_level + 1 }

/-- `Inscriptis._start_li`: take the innermost list's counter or glyph
(the default glyph `"* "` outside any list), format and advance integer
counters, assign the element's bullet, and issue the empty write. -/
def startLi (s : EngineState) : EngineState :=
  let bullet : LiC :=
    if s.li_level > 0 then s.li_counter.getLastD (LiC.glyph "* ")
    else LiC.glyph "* "
  let s :=
    match bullet with
    | LiC.num n =>
      let s := { s with li_counter := s.li_counter.dropLast ++ [LiC.num (n + 1)] }
      s.modifyTop fun e => { e with list_bullet := Nat.repr n ++ ". " }
    | LiC.glyph g => s.modifyTop fun e => { e with list_bullet := g }
  ewrite s.topTag "" s

/-- `Inscriptis._start_img`: write the `[alt-or-title]` placeholder
unless caption deduplication suppresses an exact repeat; remember the
caption afterwards. -/
def startImg (cfg : Config) (attrs : List (String × String))
    (s : EngineState) : EngineState :=
  let alt := (attrs.lookup "alt").getD ""
  let image_text := if alt ≠ "" then alt else (attrs.lookup "title").getD ""
  if image_text ≠ "" ∧
      ¬(cfg.deduplicate_captions ∧ s.last_caption = some image_text) then
    let s := ewrite s.topTag ("[" ++ image_text ++ "]") s
    { s with last_caption := some image_text }
  else s

/-- `Inscriptis._start_a`: capture the link target per configuration and
write the opening bracket when a non-empty target was captured. -/
def startA (cfg : Config) (attrs : List (String × String))
    (s : EngineState) : EngineState :=
  let s := { s with link_target := "" }
  let s :=
    if cfg.display_links then
      { s with link_target := (attrs.lookup "href").getD "" }
    else s
  let s :=
    if cfg.display_anchors ∧ s.link_target = "" then
      { s with link_target := (attrs.lookup "name").getD "" }
    else s
  if s.link_target ≠ "" then ewrite s.topTag "[" s else s

/-- `Inscriptis._end_a`: write the `](target)` suffix when a non-empty
target was captured. -/
def endA (s : EngineState) : EngineState :=
  if s.link_target ≠ "" then
    ewrite s.topTag ("](" ++ s.link_target ++ ")") s
  else s

/-- `Inscriptis._start_table`: redirect the element to a fresh private
canvas and push a new table. -/
def startTable (s : EngineState) : EngineState :=
  let cid := s.arena.length
  let s := { s with arena := s.arena ++ [Canvas.init] }
  let s := s.modifyTop fun e => { e with canvasId := cid }
  { s with tables := s.tables ++ [Table.init] }

/-- `Inscriptis._end_td`: when a table is open with an open cell, mark
it closed and close the tag on the cell's canvas. -/
def endTd (s : EngineState) : EngineState :=
  if s.tables ≠ [] ∧ s.lastTable.td_is_open then
    let s := s.modifyLastTable fun t => { t with td_is_open := false }
    let top := s.topTag
    onCanvas top (Canvas.closeTag top) s
  else s

/-- `Inscriptis._start_tr`: no-op without an open table; otherwise close
any still-open cell first and append a new row. -/
def startTr (s : EngineState) : EngineState :=
  if s.tables ≠ [] then
    let s := if s.lastTable.td_is_open then endTd s else s
    s.modifyLastTable Table.addRow
  else s

/-- `Inscriptis._start_td`: no-op without an open table; otherwise close
any still-open cell, create a cell bound to a fresh private canvas with
the element's alignment, redirect the element to it, and mark it open. -/
def startTd (s : EngineState) : EngineState :=
  if s.tables ≠ [] then
    let s := if s.lastTable.td_is_open then endTd s else s
    let cid := s.arena.length
    let cell : TableCell := ⟨cid, s.topTag.align, s.topTag.valign⟩
    let s := { s with arena := s.arena ++ [Canvas.init] }
    let s := s.modifyTop fun e => { e with canvasId := cid }
    s.modifyLastTable fun t => { (t.addCell cell) with td_is_open := true }
  else s

/-- `Inscriptis._end_table`: close any open cell, pop the table, flush
stray text accumulated outside table markup as a preceding paragraph,
write the rendered grid verbatim into the parent at the captured
committed index, and transfer the table element's own labels and all
in-table annotations (translated by the insertion index). -/
def endTable (s : EngineState) : EngineState :=
  if s.tables = [] then s
  else
    let s := if s.lastTable.td_is_open then endTd s else s
    let table := s.lastTable
    let s := { s with tables := s.tables.dropLast }
    let tTag := s.topTag
    let pTag := (s.tags.dropLast).getLastD defaultElem
    let inner := s.getCanvas tTag.canvasId
    let outText := trimStr inner.getText
    let s := s.setCanvas tTag.canvasId inner.flushInline.1
    let s :=
      if outText ≠ "" then
        let s := ewrite pTag outText s
        onCanvas pTag Canvas.writeNewline s
      else s
    let startIdx := (s.getCanvas pTag.canvasId).current_block.idx
    let tblText := table.getText s.arena
    let s := writeVerbatim pTag tblText s
    let s :=
      if tTag.annotations ≠ [] then
        let endIdx := (s.getCanvas pTag.canvasId).current_block.idx
        let spans := tTag.annotations.map (fun a => Annot.mk startIdx endIdx a)
        onCanvas pTag (fun c => { c with annotations := c.annotations ++ spans }) s
      else s
    let inTable := table.getAnnots s.arena startIdx
    onCanvas pTag (fun c => { c with annotations := c.annotations ++ inTable }) s

/-- The tail of `_end_table` after the implicit cell close, split out
for proofs; `endTable` is definitionally the composition of the cell
close and this tail. -/
def endTableTail (s : EngineState) : EngineState :=
  let table := s.lastTable
  let s := { s with tables := s.tables.dropLast }
  let tTag := s.topTag
  let pTag := (s.tags.dropLast).getLastD defaultElem
  let inner := s.getCanvas tTag.canvasId
  let outText := trimStr inner.getText
  let s := s.setCanvas tTag.canvasId inner.flushInline.1
  let s :=
    if outText ≠ "" then
      let s := ewrite pTag outText s
      onCanvas pTag Canvas.writeNewline s
    else s
  let startIdx := (s.getCanvas pTag.canvasId).current_block.idx
  let tblText := table.getText s.arena
  let s := writeVerbatim pTag tblText s
  let s :=
    if tTag.annotations ≠ [] then
      let endIdx := (s.getCanvas pTag.canvasId).current_block.idx
      let spans := tTag.annotations.map (fun a => Annot.mk startIdx endIdx a)
      onCanvas pTag (fun c => { c with annotations := c.annotations ++ spans }) s
    else s
  let inTable := table.getAnnots s.arena startIdx
  onCanvas pTag (fun c => { c with annotations := c.annotations ++ inTable }) s

/-- `Inscriptis._newline` (the `br` start handler): write a newline to
the current element's canvas. -/
def newlineH (s : EngineState) : EngineState :=
  onCanvas s.topTag Canvas.writeNewline s

/-- The start-tag dispatch table (`start_tag_handler_dict`); `a` and
`img` handlers are registered only when enabled by configuration. -/
def dispatchStart (ctx : Ctx) (tag : String)
    (attrs : List (String × String)) (s : EngineState) : EngineState :=
  if tag = "table" then startTable s
  else if tag = "tr" then startTr s
  else if tag = "td" ∨ tag = "th" then startTd s
  else if tag = "ul" then startUl s
  else if tag = "ol" then startOl s
  else if tag = "li" then startLi s
  else if tag = "br" then newlineH s
  else if tag = "a" ∧ ctx.cfg.parseA then startA ctx.cfg attrs s
  else if tag = "img" ∧ ctx.cfg.display_images then startImg ctx.cfg attrs s
  else s

/-- The end-tag dispatch table (`end_tag_handler_dict`). -/
def dispatchEnd (ctx : Ctx) (tag : String) (s : EngineState) : EngineState :=
  if tag = "table" then endTable s
  else if tag = "ul" then endUl s
  else if tag = "ol" then endOl s
  else if tag = "td" ∨ tag = "th" then endTd s
  else if tag = "a" ∧ ctx.cfg.parseA then endA s
  else s

/-- `Inscriptis.handle_starttag`: look up the tag's default style (copy,
fresh identity), refine it against the current context, push it, and run
the tag-specific start handler. -/
def handleStarttag (ctx : Ctx) (tag : String)
    (attrs : List (String × String)) (s : EngineState) : EngineState :=
  let base := { cssGet ctx.css tag with tag := tag, uid := s.nextUid }
  let cur := s.topTag.refine base
  let s := { s with tags := s.tags ++ [cur], nextUid := s.nextUid + 1 }
  dispatchStart ctx tag attrs s

/-- `Inscriptis.handle_endtag`. -/
def handleEndtag (ctx : Ctx) (tag : String) (s : EngineState) :
    EngineState :=
  dispatchEnd ctx tag s

mutual
/-- `Inscriptis._parse_html_tree`: a node whose tag is not a string is
ignored entirely (the early `return` drops even its tail); an element
is opened, its text written, its children traversed, its end handler
run, its tag closed, and its tail written to the enclosing element. -/
def parseNode (ctx : Ctx) : Node → EngineState → EngineState
  | Node.comment _, s => s
  | Node.elem tag attrs text children tail, s =>
    let s := handleStarttag ctx tag attrs s
    let cur := s.topTag
    let s := onCanvas cur (Canvas.openTag cur) s
    let s := ewrite s.topTag text s
    let s := parseNodes ctx children s
    let s := handleEndtag ctx tag s
    let prev := s.topTag
    let s := { s with tags := s.tags.dropLast }
    let s := onCanvas prev (Canvas.closeTag prev) s
    ewriteTail s.topTag tail s
def parseNodes (ctx : Ctx) : NodeList → EngineState → EngineState
  | NodeList.nil, s => s
  | NodeList.cons n rest, s => parseNodes ctx rest (parseNode ctx n s)
end

/-- The opening phase of `_parse_html_tree` for an element node (start
handler, canvas `open_tag`, text write), split out for proofs; the
element-node branch of `parseNode` is definitionally the composition of
`openPhase`, the children traversal, and `closePhase`. -/
def openPhase (ctx : Ctx) (tag : String) (attrs : List (String × String))
    (text : String) (s : EngineState) : EngineState :=
  let s := handleStarttag ctx tag attrs s
  let cur := s.topTag
  let s := onCanvas cur (Canvas.openTag cur) s
  ewrite s.topTag text s

/-- The closing phase of `_parse_html_tree` for an element node (end
handler, pop, canvas `close_tag`, tail write), split out for proofs. -/
def closePhase (ctx : Ctx) (tag tail : String) (s : EngineState) :
    EngineState :=
  let s := handleEndtag ctx tag s
  let prev := s.topTag
  let s := { s with tags := s.tags.dropLast }
  let s := onCanvas prev (Canvas.closeTag prev) s
  ewriteTail s.topTag tail s

/-- `Inscriptis.__init__`: main canvas at arena slot 0, the profile's
`body` element (bound to the main canvas) as the initial tag stack, and
the traversal of the supplied tree. -/
def initState (ctx : Ctx) : EngineState :=
  { arena := [Canvas.init]
    tags := [{ cssGet ctx.css "body" with tag := "body", uid := 0, canvasId := 0 }]
    tables := []
    li_counter := []
    li_level := 0
    last_caption := Option.none
    link_target := ""
    nextUid := 1 }

def runEngine (ctx : Ctx) (tree : Node) : EngineState :=
  parseNode ctx tree (initState ctx)

/-- `Inscriptis.get_text`. -/
def engineText (ctx : Ctx) (tree : Node) : String :=
  ((runEngine ctx tree).getCanvas 0).getText

/-- `Inscriptis.get_annotations`. -/
def engineAnnots (ctx : Ctx) (tree : Node) : List Annot :=
  ((runEngine ctx tree).getCanvas 0).annotations

/-- Modelled from the spec: a default style profile (the external
`css_profiles.py` collaborator) realizing the spec's examples: `p`/`h1`
carry margins 1/1, lists are blocks with list items indented by their
bullet width, tables and cells are blocks, `head` content is hidden. -/
def blockElem : Elem := { defaultElem with display := Display.block }

def specCss : Css :=
  [ ("body", { blockElem with whitespace := some WhiteSpace.normal }),
    ("html", blockElem),
    ("div", blockElem),
    ("p", { blockElem with margin_before := 1, margin_after := 1 }),
    ("h1", { blockElem with margin_before := 1, margin_after := 1 }),
    ("ul", blockElem),
    ("ol", blockElem),
    ("li", { blockElem with padding_inline := 2 }),
    ("table", blockElem),
    ("tr", blockElem),
    ("td", blockElem),
    ("th", blockElem),
    ("head", { defaultElem with display := Display.none }),
    ("pre", { blockElem with whitespace := some WhiteSpace.pre }) ]

/-- The default context used by the concrete examples. -/
def defaultCtx : Ctx := ⟨Config.default, specCss⟩

/-! ## Annotation-rule parsing (`annotation/parser.py`) -/

/-- An `ApplyAnnotation` rule as the constructor builds it: the labels
plus the captured `match_tag` / `match_value` (Python falsiness of `''`
and `None` modelled by `Option.none`). -/
structure ApplyAnn where
  annots : List String
  matchTag : Option String
  matchValue : Option String
deriving DecidableEq, Repr

/-- Python `str.split()`: split on whitespace runs, dropping empties. -/
def pySplitWs (s : String) : List String :=
  ((splitWsChar s.toList).map (fun l => String.mk l)).filter (fun t => t ≠ "")

/-- The matcher lambda chosen by `ApplyAnnotation.__init__`: both set
requires tag equality and token membership; only `match_tag` set
requires tag equality; only `match_value` set requires membership. -/
def ApplyAnn.matchesOn (r : ApplyAnn) (attrValue : String) (tag : String) :
    Bool :=
  match r.matchTag, r.matchValue with
  | some t, some v => t = tag && (pySplitWs attrValue).contains v
  | some t, Option.none => t = tag
  | Option.none, some v => (pySplitWs attrValue).contains v
  | Option.none, Option.none => true

/-- `ApplyAnnotation.apply`: `apply_all` when neither matcher argument
was given, otherwise `apply_matching`. -/
def ApplyAnn.applyTo (r : ApplyAnn) (attrValue : String) (e : Elem) : Elem :=
  match r.matchTag, r.matchValue with
  | Option.none, Option.none => { e with annotations := e.annotations ++ r.annots }
  | _, _ =>
    if r.matchesOn attrValue e.tag then
      { e with annotations := e.annotations ++ r.annots }
    else e

/-- Python truthiness of a string argument. -/
def strToOpt (s : String) : Option String :=
  if s = "" then Option.none else some s

/-- `defaultdict(list)` accumulation used by `AnnotationModel._parse`. -/
def addTagAnnots (tags : List (String × List String)) (key : String)
    (annots : List String) : List (String × List String) :=
  match tags with
  | [] => [(key, annots)]
  | (k, a) :: rest =>
    if k = key then (k, a ++ annots) :: rest
    else (k, a) :: addTagAnnots rest key annots

/-- `AnnotationModel._parse`: keys without `#` accumulate per-tag
labels; keys with `#` build an `ApplyAnnotation`.  Note the faithful
translation of `attr, value = key.split('=')`: when the key carries a
`=`, the **whole key** is split at `=`, so the captured `match_tag` is
everything before the `=` (including the tag and the `#`). -/
def parseAnnModel (model : List (String × List String)) :
    List (String × List String) × List ApplyAnn :=
  model.foldl
    (fun acc kv =>
      let tags := acc.1
      let attrs := acc.2
      let key := kv.1
      let annots := kv.2
      if strContains '#' key then
        let attr0 := (strSplitOn '#' key).getD 1 ""
        if strContains '=' attr0 then
          let attr := (strSplitOn '=' key).getD 0 ""
          let value := (strSplitOn '=' key).getD 1 ""
          (tags, attrs ++ [ApplyAnn.mk annots (strToOpt attr) (strToOpt value)])
        else
          (tags, attrs ++ [ApplyAnn.mk annots (strToOpt attr0) Option.none])
      else (addTagAnnots tags key annots, attrs))
    ([], [])

/-! ## Canvas operation sequences

A reified alphabet of the operations the traversal driver triggers on a
single canvas, used to state canvas-level invariants over arbitrary
operation orders. -/

inductive CanvasOp where
  | openT (e : Elem)
  | closeT (e : Elem)
  | writeOp (e : Elem) (text : String)
  | newlineOp
  | openB (e : Elem)
  | closeB (e : Elem)

def runOp : CanvasOp → Canvas → Canvas
  | CanvasOp.openT e, c => Canvas.openTag e c
  | CanvasOp.closeT e, c => Canvas.closeTag e c
  | CanvasOp.writeOp e t, c => Canvas.write e t Option.none c
  | CanvasOp.newlineOp, c => Canvas.writeNewline c
  | CanvasOp.openB e, c => Canvas.openBlock e c
  | CanvasOp.closeB e, c => Canvas.closeBlock e c

def runOps (ops : List CanvasOp) (c : Canvas) : Canvas :=
  ops.foldl (fun c op => runOp op c) c

/-- Only `open_block` / `close_block` operations. -/
def isBlockOp : CanvasOp → Bool
  | CanvasOp.openB _ => true
  | CanvasOp.closeB _ => true
  | _ => false

/-- The margin an `open_block` / `close_block` operation requires. -/
def requiredOf : CanvasOp → Nat
  | CanvasOp.openB e => max e.previous_margin_after e.margin_before
  | CanvasOp.closeB e => e.margin_after
  | _ => 0

/-- The largest margin required by any operation of the list. -/
def maxRequired (ops : List CanvasOp) : Nat :=
  (ops.map requiredOf).foldr max 0

/-- Tag-open/close and block-open/close operations (no writes). -/
def isTagOrBlockOp : CanvasOp → Bool
  | CanvasOp.openT _ => true
  | CanvasOp.closeT _ => true
  | CanvasOp.openB _ => true
  | CanvasOp.closeB _ => true
  | _ => false

/-- All margins carried by the operation stay within the sentinel. -/
def opMarginsLE (n : Nat) : CanvasOp → Bool
  | CanvasOp.openT e => e.previous_margin_after ≤ n && e.margin_before ≤ n
      && e.margin_after ≤ n
  | CanvasOp.closeT e => e.previous_margin_after ≤ n && e.margin_before ≤ n
      && e.margin_after ≤ n
  | CanvasOp.openB e => e.previous_margin_after ≤ n && e.margin_before ≤ n
      && e.margin_after ≤ n
  | CanvasOp.closeB e => e.previous_margin_after ≤ n && e.margin_before ≤ n
      && e.margin_after ≤ n
  | _ => true

/-- Shift an annotation span by a base offset. -/
def shiftAnnot (base : Nat) (a : Annot) : Annot :=
  ⟨a.start_idx + base, a.end_idx + base, a.label⟩

/-- The canvas-level invariant behind the annotation claims: all
recorded spans are non-empty and every open-annotation record points at
or before the committed index. -/
def CanvasInv (c : Canvas) : Prop :=
  (∀ a ∈ c.annotations, a.start_idx < a.end_idx) ∧
  (∀ p ∈ c.openAnnots, p.2 ≤ c.current_block.idx)

/-- Freshness of element identities: every open-annotation key in the
arena was assigned before the next free uid. -/
def UidsFresh (s : EngineState) : Prop :=
  ∀ c ∈ s.arena, ∀ p ∈ c.openAnnots, p.1 < s.nextUid

mutual
/-- Subtrees containing none of the tags whose handlers write to the
canvas without consulting the element's `display` (`br` via
`write_newline`; the table machinery via `write_verbatim_text` and the
cell bookkeeping). -/
def benignNode : Node → Bool
  | Node.comment _ => true
  | Node.elem tag _ _ children _ =>
    !(tag = "br" || tag = "table" || tag = "tr" || tag = "td" || tag = "th")
      && benignList children
def benignList : NodeList → Bool
  | NodeList.nil => true
  | NodeList.cons n rest => benignNode n && benignList rest
end

/-! ## Concrete inputs used by the examples, counterexamples and
witnesses -/

def toNodeList (l : List Node) : NodeList :=
  l.foldr NodeList.cons NodeList.nil

def liNode (t : String) : Node := Node.elem "li" [] t NodeList.nil ""

/-- `<ul><li>A</li><li>B</li></ul>` -/
def ulTree2 : Node :=
  Node.elem "ul" [] "" (toNodeList [liNode "A", liNode "B"]) ""

/-- `<ol><li>A</li><li>B</li><li>C</li></ol>` -/
def olTree3 : Node :=
  Node.elem "ol" [] "" (toNodeList [liNode "A", liNode "B", liNode "C"]) ""

/-- `<body><h1>Title</h1><p>Hello world</p></body>` -/
def h1pTree : Node :=
  Node.elem "body" [] ""
    (toNodeList [Node.elem "h1" [] "Title" NodeList.nil "",
                 Node.elem "p" [] "Hello world" NodeList.nil ""]) ""

/-- A bare `<li>X</li>` inside `<body>`, outside any list. -/
def bareLiTree : Node :=
  Node.elem "body" [] "" (toNodeList [liNode "X"]) ""

/-- `<div>A<!-- comment -->B…</div>`: the comment carries tail "B". -/
def commentTailTree : Node :=
  Node.elem "div" [] "A" (toNodeList [Node.comment "B"]) ""

/-- `<body>x<head><br/></head>y</body>` with `head` styled
`display:none`: a `br` inside the hidden subtree. -/
def hiddenBrTree : Node :=
  Node.elem "body" [] "x"
    (toNodeList [Node.elem "head" [] ""
      (toNodeList [Node.elem "br" [] "" NodeList.nil ""]) "y"]) ""

/-- The same document with the hidden subtree holding plain text
instead of the `br`. -/
def hiddenFlatTree : Node :=
  Node.elem "body" [] "x"
    (toNodeList [Node.elem "head" [] "secret" NodeList.nil "y"]) ""

/-- `<body><table>stray<tr><td>A</td><td>B</td></tr></table></body>` -/
def c4tree : Node :=
  Node.elem "body" [] ""
    (toNodeList [Node.elem "table" [] "stray"
      (toNodeList [Node.elem "tr" [] ""
        (toNodeList [Node.elem "td" [] "A" NodeList.nil "",
                     Node.elem "td" [] "B" NodeList.nil ""]) ""]) ""]) ""

/-- The default profile with annotation labels on `table` and `td`. -/
def cssAnnTable : Css :=
  specCss.map fun te =>
    if te.1 = "table" then (te.1, { te.2 with annotations := ["tbl"] })
    else if te.1 = "td" then (te.1, { te.2 with annotations := ["cell"] })
    else te

def ctxAnnTable : Ctx := ⟨Config.default, cssAnnTable⟩

/-- A block element asking for a margin beyond the sentinel. -/
def sentinelElem : Elem :=
  { defaultElem with display := Display.block, margin_before := 1001 }

/-- A block element with bottom margin 1 (stands for a closed `p`). -/
def c3e1 : Elem :=
  { defaultElem with
      uid := 1
      display := Display.block
      margin_after := 1 }

/-- An annotated empty block element with top margin 2 (stands for an
empty annotated `h1` following the paragraph). -/
def c3e2 : Elem :=
  { defaultElem with
      uid := 2
      display := Display.block
      margin_before := 2
      annotations := ["heading"] }

/-- An inline annotated element used by witnesses. -/
def c3w : Elem := { defaultElem with uid := 5, annotations := ["lbl"] }

/-- A canvas with an open annotation for `c3w` recorded at index 0. -/
def c3wCanvas : Canvas := { Canvas.init with openAnnots := [(5, 0)] }

/-- A canvas with an open annotation for `c3w` recorded at index 0 and
the committed index already advanced to 4. -/
def c3wCanvas4 : Canvas :=
  { Canvas.init with
      openAnnots := [(5, 0)]
      current_block := { Block.initial with idx := 4 } }

/-- Block elements with small margins used by the `C1` witness. -/
def c1e1 : Elem :=
  { defaultElem with display := Display.block, margin_after := 2 }

def c1e2 : Elem :=
  { defaultElem with
      display := Display.block
      margin_before := 3
      previous_margin_after := 2 }

/-- A flushed canvas with one committed line and margin 1 (one blank
line already emitted since the flush). -/
def c1canvas : Canvas :=
  { Canvas.init with
      margin := 1
      blocks := ["t", ""]
      current_block := { Block.initial with idx := 3 } }

/-- A `div` element, target of the annotation-rule evaluation. -/
def divElem : Elem := { defaultElem with tag := "div" }

/-- The buggy rule produced for the docstring's own example key. -/
def tocRule : ApplyAnn :=
  ⟨["table-of-contents"], some "div#class", some "toc"⟩

/-- A state whose top element is hidden, used by the `C2` witness. -/
def hiddenTopState : EngineState :=
  { initState defaultCtx with
      tags := [{ defaultElem with display := Display.none }] }

/-- A state with one open table, used by the `C7` witness. -/
def openTableState : EngineState :=
  { initState defaultCtx with tables := [Table.init] }

/-- A state inside an open table: the top element (the table tag)
redirected to the table's private canvas at slot 1, used by the `C4`
witness. -/
def insideTableState : EngineState :=
  { arena := [Canvas.init, Canvas.init]
    tags := [{ cssGet specCss "body" with tag := "body", uid := 0, canvasId := 0 }, { blockElem with tag := "table", uid := 1, canvasId := 1 }]
    tables := [Table.init]
    li_counter := []
    li_level := 0
    last_caption := Option.none
    link_target := ""
    nextUid := 2 }

/-! ## Helper lemmas: lists and association lists -/

theorem set_getD_self {α : Type} (A : List α) (i : Nat) (d : α) :
    A.set i (A.getD i d) = A := by
  induction A generalizing i with
  | nil => simp
  | cons a rest ih =>
    cases i with
    | zero => simp
    | succ n => simpa using ih n

theorem getD_set_self {α : Type} (A : List α) (i : Nat) (x d : α)
    (h : i < A.length) : (A.set i x).getD i d = x := by
  simp [List.getD, List.getElem?_set_self, h]

theorem getD_set_ne {α : Type} (A : List α) (i j : Nat) (x d : α)
    (h : i ≠ j) : (A.set i x).getD j d = A.getD j d := by
  simp [List.getD, List.getElem?_set_ne h]

theorem getD_append_zero {α : Type} (A : List α) (x d : α) (h : A ≠ []) :
    (A ++ [x]).getD 0 d = A.getD 0 d := by
  cases A with
  | nil => exact absurd rfl h
  | cons a rest => simp

theorem insertA_notMem (u v : Nat) (l : List (Nat × Nat))
    (h : ∀ p ∈ l, p.1 ≠ u) : Canvas.insertA u v l = l ++ [(u, v)] := by
  induction l with
  | nil => rfl
  | cons p rest ih =>
    have hk : p.1 ≠ u := h p (by simp)
    simp [Canvas.insertA, hk, ih (fun q hq => h q (by simp [hq]))]

theorem lookupA_notMem (u : Nat) (l : List (Nat × Nat))
    (h : ∀ p ∈ l, p.1 ≠ u) : Canvas.lookupA u l = Option.none := by
  induction l with
  | nil => rfl
  | cons p rest ih =>
    have hk : p.1 ≠ u := h p (by simp)
    simp [Canvas.lookupA, hk, ih (fun q hq => h q (by simp [hq]))]

theorem lookupA_append_notMem (u v : Nat) (l : List (Nat × Nat))
    (h : ∀ p ∈ l, p.1 ≠ u) :
    Canvas.lookupA u (l ++ [(u, v)]) = some v := by
  induction l with
  | nil => simp [Canvas.lookupA]
  | cons p rest ih =>
    have hk : p.1 ≠ u := h p (by simp)
    simp [Canvas.lookupA, hk, ih (fun q hq => h q (by simp [hq]))]

theorem eraseA_append_notMem (u v : Nat) (l : List (Nat × Nat))
    (h : ∀ p ∈ l, p.1 ≠ u) : Canvas.eraseA u (l ++ [(u, v)]) = l := by
  induction l with
  | nil => simp [Canvas.eraseA]
  | cons p rest ih =>
    have hk : p.1 ≠ u := h p (by simp)
    simp [Canvas.eraseA, hk, ih (fun q hq => h q (by simp [hq]))]

theorem mem_insertA (u v : Nat) (l : List (Nat × Nat)) (p : Nat × Nat)
    (h : p ∈ Canvas.insertA u v l) : p ∈ l ∨ p = (u, v) := by
  induction l with
  | nil => simpa [Canvas.insertA] using h
  | cons q rest ih =>
    obtain ⟨k, w⟩ := q
    by_cases hq : k = u
    · simp [Canvas.insertA, hq] at h
      rcases h with h | h
      · right; simp [h, hq]
      · left; simp [h]
    · simp [Canvas.insertA, hq] at h
      rcases h with h | h
      · left; simp [h]
      · rcases ih h with h' | h'
        · left; simp [h']
        · right; exact h'

theorem mem_eraseA (u : Nat) (l : List (Nat × Nat)) (p : Nat × Nat)
    (h : p ∈ Canvas.eraseA u l) : p ∈ l := by
  induction l with
  | nil => simp [Canvas.eraseA] at h
  | cons q rest ih =>
    obtain ⟨k, w⟩ := q
    by_cases hq : k = u
    · simp [Canvas.eraseA, hq] at h
      simp [h]
    · simp [Canvas.eraseA, hq] at h
      rcases h with h | h
      · simp [h]
      · simp [ih h]

theorem lookupA_le (u v : Nat) (l : List (Nat × Nat))
    (h : Canvas.lookupA u l = some v) : (u, v) ∈ l := by
  induction l with
  | nil => simp [Canvas.lookupA] at h
  | cons q rest ih =>
    obtain ⟨k, w⟩ := q
    by_cases hq : k = u
    · simp [Canvas.lookupA, hq] at h
      simp [hq, h]
    · simp [Canvas.lookupA, hq] at h
      simp [ih h]

/-! ## Helper lemmas: canvas primitives -/

theorem flushInline_empty (c : Canvas) (h : c.current_block.content = "") :
    Canvas.flushInline c = (c, false) := by
  simp [Canvas.flushInline, Block.isEmpty, h]

theorem closeBlock_spec (e : Elem) (c : Canvas) :
    (Canvas.closeBlock e c).margin = max c.margin e.margin_after
    ∧ (Canvas.closeBlock e c).current_block.idx
        = c.current_block.idx + (max c.margin e.margin_after - c.margin)
    ∧ (Canvas.closeBlock e c).current_block.content = c.current_block.content
    ∧ (Canvas.closeBlock e c).annotations = c.annotations
    ∧ (Canvas.closeBlock e c).openAnnots = c.openAnnots := by
  unfold Canvas.closeBlock
  by_cases hr : e.margin_after > c.margin
  · rw [if_pos hr]
    refine ⟨?_, ?_, rfl, rfl, rfl⟩
    · show e.margin_after = max c.margin e.margin_after
      omega
    · show c.current_block.idx + (e.margin_after - c.margin)
          = c.current_block.idx + (max c.margin e.margin_after - c.margin)
      omega
  · rw [if_neg hr]
    refine ⟨?_, ?_, rfl, rfl, rfl⟩
    · show c.margin = max c.margin e.margin_after
      omega
    · show c.current_block.idx
          = c.current_block.idx + (max c.margin e.margin_after - c.margin)
      omega

theorem openBlock_spec (e : Elem) (c : Canvas)
    (h : c.current_block.content = "") :
    (Canvas.openBlock e c).margin
        = max c.margin (max e.previous_margin_after e.margin_before)
    ∧ (Canvas.openBlock e c).current_block.idx
        = c.current_block.idx
          + (max c.margin (max e.previous_margin_after e.margin_before)
              - c.margin)
    ∧ (Canvas.openBlock e c).current_block.content = ""
    ∧ (Canvas.openBlock e c).annotations = c.annotations
    ∧ (Canvas.openBlock e c).openAnnots = c.openAnnots := by
  unfold Canvas.openBlock
  rw [flushInline_empty c h]
  by_cases hr : max e.previous_margin_after e.margin_before > c.margin
  · rw [if_pos hr]
    refine ⟨?_, ?_, ?_, rfl, rfl⟩
    · show max e.previous_margin_after e.margin_before = _
      omega
    · show c.current_block.idx
          + (max e.previous_margin_after e.margin_before - c.margin) = _
      omega
    · exact h
  · rw [if_neg hr]
    refine ⟨?_, ?_, ?_, rfl, rfl⟩
    · show c.margin = _
      omega
    · show c.current_block.idx = _
      omega
    · exact h

theorem refine_none (parent n : Elem) (h : parent.display = Display.none) :
    parent.refine n
      = { n with canvasId := parent.canvasId, display := Display.none } := by
  simp [Elem.refine, h]

theorem closeTag_openTag_none (e : Elem) (c : Canvas)
    (hd : e.display = Display.none)
    (hf : ∀ p ∈ c.openAnnots, p.1 ≠ e.uid) :
    Canvas.closeTag e (Canvas.openTag e c) = c := by
  have hnb : e.display ≠ Display.block := by simp [hd]
  by_cases ha : e.annotations = []
  · unfold Canvas.openTag Canvas.closeTag
    simp [ha, hnb, lookupA_notMem _ _ hf]
  · unfold Canvas.openTag Canvas.closeTag
    rw [if_pos ha, if_neg hnb, insertA_notMem _ _ _ hf, if_neg hnb]
    simp only [lookupA_append_notMem _ _ _ hf, eraseA_append_notMem _ _ _ hf]
    simp

/-- For a non-block element `close_tag` is only the annotation phase:
margin, committed blocks and the current block are untouched. -/
theorem closeTag_inline_fields (e : Elem) (c : Canvas)
    (hd : e.display ≠ Display.block) :
    (Canvas.closeTag e c).margin = c.margin
    ∧ (Canvas.closeTag e c).blocks = c.blocks
    ∧ (Canvas.closeTag e c).current_block = c.current_block := by
  unfold Canvas.closeTag
  rw [if_neg hd]
  refine ⟨?_, ?_, ?_⟩ <;>
    · simp only []
      split
      · rfl
      · split
        · rfl
        · rfl

/-- `close_tag` on a block element with no pending content decomposes
into the block phase (pop the prefix, then `close_block`) followed by
the pure annotation phase. -/
theorem closeTag_block_decomp (e : Elem) (c : Canvas)
    (hd : e.display = Display.block) (hc : c.current_block.content = "") :
    Canvas.closeTag e c
      = Canvas.closeTag { e with display := Display.inline }
          (Canvas.closeBlock e { c with current_block := { c.current_block with pref := c.current_block.pref.removeLast } }) := by
  conv_lhs => unfold Canvas.closeTag
  conv_rhs => unfold Canvas.closeTag
  rw [if_pos hd, flushInline_empty c hc]
  rw [if_neg (by simp : ({ e with display := Display.inline } : Elem).display ≠ Display.block)]

/-- Any sequence of `open_block` / `close_block` operations starting
from a canvas with no pending content drives the running margin to the
maximum of its old value and all required margins, and advances the
committed index by exactly the margin growth. -/
theorem runOps_blockOnly (ops : List CanvasOp) (c : Canvas)
    (hops : ops.all isBlockOp = true) (h : c.current_block.content = "") :
    (runOps ops c).margin = max c.margin (maxRequired ops)
    ∧ (runOps ops c).current_block.idx
        = c.current_block.idx + ((runOps ops c).margin - c.margin)
    ∧ (runOps ops c).current_block.content = "" := by
  induction ops generalizing c with
  | nil =>
    refine ⟨?_, by simp [runOps], h⟩
    simp [runOps, maxRequired]
  | cons op rest ih =>
    have hop : isBlockOp op = true := by
      rcases List.all_eq_true.mp hops op (by simp) with h'
      exact h'
    have hrest : rest.all isBlockOp = true := by
      refine List.all_eq_true.mpr fun x hx =>
        List.all_eq_true.mp hops x (by simp [hx])
    have hrun : runOps (op :: rest) c = runOps rest (runOp op c) := rfl
    have hmaxR : maxRequired (op :: rest)
        = max (requiredOf op) (maxRequired rest) := rfl
    cases op with
    | openB e =>
      obtain ⟨hm1, hi1, hc1, -, -⟩ := openBlock_spec e c h
      obtain ⟨hm2, hi2, hc2⟩ := ih (Canvas.openBlock e c) hrest hc1
      have hrun' : runOps (CanvasOp.openB e :: rest) c
          = runOps rest (Canvas.openBlock e c) := rfl
      have hreq : requiredOf (CanvasOp.openB e)
          = max e.previous_margin_after e.margin_before := rfl
      rw [hrun', hmaxR, hreq]
      rw [hm2, hm1] at *
      refine ⟨by omega, ?_, hc2⟩
      rw [hi2, hi1, hm1]
      omega
    | closeB e =>
      obtain ⟨hm1, hi1, hc1, -, -⟩ := closeBlock_spec e c
      have hc1' : (Canvas.closeBlock e c).current_block.content = "" := by
        rw [hc1, h]
      obtain ⟨hm2, hi2, hc2⟩ := ih (Canvas.closeBlock e c) hrest hc1'
      have hrun' : runOps (CanvasOp.closeB e :: rest) c
          = runOps rest (Canvas.closeBlock e c) := rfl
      have hreq : requiredOf (CanvasOp.closeB e) = e.margin_after := rfl
      rw [hrun', hmaxR, hreq]
      rw [hm2, hm1] at *
      refine ⟨by omega, ?_, hc2⟩
      rw [hi2, hi1, hm1]
      omega
    | openT e => simp [isBlockOp] at hop
    | closeT e => simp [isBlockOp] at hop
    | writeOp e t => simp [isBlockOp] at hop
    | newlineOp => simp [isBlockOp] at hop

/-- Claim C1 (margin collapsing).  Closing a block element with
`margin_after` m1 and opening the next with `margin_before` m2 (its
`previous_margin_after` bounded by `max m1 m2`, as refinement produces)
advances the committed index — i.e. emits blank lines — by exactly
`max m1 m2 - margin`, where `margin` is the running count of blank
lines already emitted since the last flushed content; the count is
never negative (truncated subtraction over `Nat`, bounded by
`max m1 m2`), and for positive margins it is strictly below `m1 + m2`.
Moreover any sequence of consecutive `open_block` / `close_block`
operations emits at most the single largest required margin.  On the
spec's own example document the canvas commits
`["Title", "", "Hello world", ""]`: exactly one blank line separates
the two flushed texts although both elements carry margins 1/1. -/
theorem c1_margin_collapse :
    (∀ (c : Canvas) (e1 e2 : Elem),
      c.current_block.content = "" →
      e2.previous_margin_after ≤ max e1.margin_after e2.margin_before →
      ((Canvas.openBlock e2 (Canvas.closeBlock e1 c)).current_block.idx
          - c.current_block.idx
        = max e1.margin_after e2.margin_before - c.margin)
      ∧ ((Canvas.openBlock e2 (Canvas.closeBlock e1 c)).current_block.idx
          - c.current_block.idx ≤ max e1.margin_after e2.margin_before)
      ∧ (0 < e1.margin_after → 0 < e2.margin_before →
          (Canvas.openBlock e2 (Canvas.closeBlock e1 c)).current_block.idx
            - c.current_block.idx < e1.margin_after + e2.margin_before))
    ∧ (∀ (ops : List CanvasOp) (c : Canvas),
        ops.all isBlockOp = true → c.current_block.content = "" →
        (runOps ops c).current_block.idx - c.current_block.idx
          ≤ maxRequired ops)
    ∧ ((runEngine defaultCtx h1pTree).getCanvas 0).flushInline.1.blocks
        = ["Title", "", "Hello world", ""] := by
  refine ⟨?_, ?_, by decide⟩
  · intro c e1 e2 h hp
    obtain ⟨hm1, hi1, hc1, -, -⟩ := closeBlock_spec e1 c
    have hc1' : (Canvas.closeBlock e1 c).current_block.content = "" := by
      rw [hc1, h]
    obtain ⟨hm2, hi2, -, -, -⟩ :=
      openBlock_spec e2 (Canvas.closeBlock e1 c) hc1'
    rw [hi2, hi1, hm1]
    refine ⟨by omega, by omega, fun h1 h2 => by omega⟩
  · intro ops c hops h
    obtain ⟨hm, hi, -⟩ := runOps_blockOnly ops c hops h
    rw [hi, hm]
    omega

/-- Witness for claim C1: a concrete flushed canvas (one committed
line, margin 1) followed by a close with `margin_after` 2 and an open
with `margin_before` 3 emits exactly `max 2 3 - 1 = 2` blank lines. -/
theorem c1_margin_collapse_witness :
    (Canvas.openBlock c1e2 (Canvas.closeBlock c1e1 c1canvas)).current_block.idx
        - c1canvas.current_block.idx
      = max c1e1.margin_after c1e2.margin_before - c1canvas.margin :=
  (c1_margin_collapse.1 c1canvas c1e1 c1e2 (by decide) (by decide)).1

/-- Counterexample for claim C5: the sentinel is the finite value 1000,
so an element demanding `margin_before = 1001` emits a blank line on a
fresh canvas before any content has been flushed: the canvas commits an
(empty) blank block, and writing the first text afterwards yields a text
with a leading blank line. -/
theorem c5_counterexample :
    (Canvas.openBlock sentinelElem Canvas.init).blocks = [""]
    ∧ (Canvas.write sentinelElem "x" Option.none
        (Canvas.openBlock sentinelElem Canvas.init)).getText = "\nx" := by
  constructor
  · decide
  · decide

/-- Claim C5 as amended: for every sequence of tag-open/close and
block-open/close operations whose elements carry margins not exceeding
the sentinel 1000, a fresh canvas emits no blank lines before the first
flushed content: no block is committed and the committed index stays 0
(the running margin stays at the sentinel). -/
theorem c5_amended (ops : List CanvasOp)
    (h1 : ops.all isTagOrBlockOp = true)
    (h2 : ops.all (opMarginsLE 1000) = true) :
    (runOps ops Canvas.init).blocks = []
    ∧ (runOps ops Canvas.init).current_block.idx = 0 := by
  suffices h : ∀ (c : Canvas), c.margin = 1000 → c.blocks = [] →
      c.current_block.content = "" → c.current_block.idx = 0 →
      ∀ (ops : List CanvasOp), ops.all isTagOrBlockOp = true →
      ops.all (opMarginsLE 1000) = true →
      (runOps ops c).blocks = [] ∧ (runOps ops c).current_block.idx = 0 by
    exact h Canvas.init rfl rfl rfl rfl ops h1 h2
  intro c hm hb hc hi ops
  induction ops generalizing c with
  | nil => exact fun _ _ => ⟨hb, hi⟩
  | cons op rest ih =>
    intro hall1 hall2
    have hop1 : isTagOrBlockOp op = true :=
      List.all_eq_true.mp hall1 op (by simp)
    have hop2 : opMarginsLE 1000 op = true :=
      List.all_eq_true.mp hall2 op (by simp)
    have hrest1 : rest.all isTagOrBlockOp = true :=
      List.all_eq_true.mpr fun x hx => List.all_eq_true.mp hall1 x (by simp [hx])
    have hrest2 : rest.all (opMarginsLE 1000) = true :=
      List.all_eq_true.mpr fun x hx => List.all_eq_true.mp hall2 x (by simp [hx])
    have step : ∀ (e : Elem) (cx : Canvas), cx.margin = 1000 →
        cx.blocks = [] → cx.current_block.content = "" →
        cx.current_block.idx = 0 →
        e.previous_margin_after ≤ 1000 → e.margin_before ≤ 1000 →
        (Canvas.openBlock e cx).margin = 1000
        ∧ (Canvas.openBlock e cx).blocks = []
        ∧ (Canvas.openBlock e cx).current_block.content = ""
        ∧ (Canvas.openBlock e cx).current_block.idx = 0 := by
      intro e cx hxm hxb hxc hxi hp hbef
      have hno : ¬ max e.previous_margin_after e.margin_before > cx.margin := by
        omega
      unfold Canvas.openBlock
      rw [flushInline_empty cx hxc, if_neg hno]
      exact ⟨hxm, hxb, hxc, hxi⟩
    cases op with
    | openB e =>
      simp only [opMarginsLE, Bool.and_eq_true, decide_eq_true_eq] at hop2
      obtain ⟨h1', h2', h3', h4'⟩ := step e c hm hb hc hi hop2.1.1 hop2.1.2
      exact ih (Canvas.openBlock e c) h1' h2' h3' h4' hrest1 hrest2
    | closeB e =>
      simp only [opMarginsLE, Bool.and_eq_true, decide_eq_true_eq] at hop2
      have hno : ¬ e.margin_after > c.margin := by omega
      have hid : Canvas.closeBlock e c = c := by
        unfold Canvas.closeBlock
        rw [if_neg hno]
      have hrun : runOps (CanvasOp.closeB e :: rest) c
          = runOps rest (Canvas.closeBlock e c) := rfl
      rw [hrun, hid]
      exact ih c hm hb hc hi hrest1 hrest2
    | openT e =>
      simp only [opMarginsLE, Bool.and_eq_true, decide_eq_true_eq] at hop2
      have hrun : runOps (CanvasOp.openT e :: rest) c
          = runOps rest (Canvas.openTag e c) := rfl
      rw [hrun]
      by_cases ha : e.annotations = []
      · have h0 : Canvas.openTag e c
            = if e.display = Display.block then Canvas.openBlock e c else c := by
          unfold Canvas.openTag
          simp [ha]
        rw [h0]
        by_cases hd : e.display = Display.block
        · rw [if_pos hd]
          obtain ⟨h1', h2', h3', h4'⟩ := step e c hm hb hc hi hop2.1.1 hop2.1.2
          exact ih (Canvas.openBlock e c) h1' h2' h3' h4' hrest1 hrest2
        · rw [if_neg hd]
          exact ih c hm hb hc hi hrest1 hrest2
      · have h0 : Canvas.openTag e c
            = if e.display = Display.block then Canvas.openBlock e { c with openAnnots := Canvas.insertA e.uid c.current_block.idx c.openAnnots } else { c with openAnnots := Canvas.insertA e.uid c.current_block.idx c.openAnnots } := by
          unfold Canvas.openTag
          simp [ha]
        rw [h0]
        by_cases hd : e.display = Display.block
        · rw [if_pos hd]
          obtain ⟨h1', h2', h3', h4'⟩ :=
            step e { c with openAnnots := Canvas.insertA e.uid c.current_block.idx c.openAnnots } hm hb hc hi hop2.1.1 hop2.1.2
          exact ih _ h1' h2' h3' h4' hrest1 hrest2
        · rw [if_neg hd]
          exact ih _ hm hb hc hi hrest1 hrest2
    | closeT e =>
      simp only [opMarginsLE, Bool.and_eq_true, decide_eq_true_eq] at hop2
      have hrun : runOps (CanvasOp.closeT e :: rest) c
          = runOps rest (Canvas.closeTag e c) := rfl
      rw [hrun]
      have hmain : (Canvas.closeTag e c).margin = 1000
          ∧ (Canvas.closeTag e c).blocks = []
          ∧ (Canvas.closeTag e c).current_block.content = ""
          ∧ (Canvas.closeTag e c).current_block.idx = 0 := by
        by_cases hd : e.display = Display.block
        · rw [closeTag_block_decomp e c hd hc]
          have hno : ¬ e.margin_after
              > ({ c with current_block := { c.current_block with pref := c.current_block.pref.removeLast } } : Canvas).margin := by
            show ¬ e.margin_after > c.margin
            omega
          have hid : Canvas.closeBlock e { c with current_block := { c.current_block with pref := c.current_block.pref.removeLast } } = { c with current_block := { c.current_block with pref := c.current_block.pref.removeLast } } := by
            unfold Canvas.closeBlock
            rw [if_neg hno]
          rw [hid]
          obtain ⟨f1, f2, f3⟩ :=
            closeTag_inline_fields { e with display := Display.inline }
              { c with current_block := { c.current_block with pref := c.current_block.pref.removeLast } } (by simp)
          rw [f1, f2, f3]
          exact ⟨hm, hb, hc, hi⟩
        · obtain ⟨f1, f2, f3⟩ := closeTag_inline_fields e c hd
          rw [f1, f2, f3]
          exact ⟨hm, hb, hc, hi⟩
      obtain ⟨h1', h2', h3', h4'⟩ := hmain
      exact ih (Canvas.closeTag e c) h1' h2' h3' h4' hrest1 hrest2
    | writeOp e t => simp [isTagOrBlockOp] at hop1
    | newlineOp => simp [isTagOrBlockOp] at hop1

/-- Witness for claim C5 as amended: a single `open_block` whose
element stays within the sentinel emits nothing on a fresh canvas. -/
theorem c5_amended_witness :
    (runOps [CanvasOp.openB c1e2] Canvas.init).blocks = []
    ∧ (runOps [CanvasOp.openB c1e2] Canvas.init).current_block.idx = 0 :=
  c5_amended [CanvasOp.openB c1e2] (by decide) (by decide)

/-! ## Helper lemmas: the canvas annotation invariant -/

theorem merge_idx_mono (b : Block) (t : String) (ws : WhiteSpace) :
    b.idx ≤ (b.merge t ws).idx := by
  cases ws with
  | pre =>
    show b.idx ≤ (b.mergePre t).idx
    unfold Block.mergePre
    simp only []
    split <;> simp
  | normal =>
    show b.idx ≤ (b.mergeNormal t).idx
    unfold Block.mergeNormal
    simp only []
    split
    · simp
    · split <;> simp

theorem flushInline_parts (c : Canvas) :
    c.current_block.idx ≤ (Canvas.flushInline c).1.current_block.idx
    ∧ (Canvas.flushInline c).1.annotations = c.annotations
    ∧ (Canvas.flushInline c).1.openAnnots = c.openAnnots := by
  unfold Canvas.flushInline
  by_cases h : c.current_block.isEmpty = true <;> simp [h, Block.newBlock]

theorem openBlock_parts (e : Elem) (c : Canvas) :
    c.current_block.idx ≤ (Canvas.openBlock e c).current_block.idx
    ∧ (Canvas.openBlock e c).annotations = c.annotations
    ∧ (Canvas.openBlock e c).openAnnots = c.openAnnots := by
  obtain ⟨f1, f2, f3⟩ := flushInline_parts c
  unfold Canvas.openBlock
  simp only []
  split
  · refine ⟨?_, f2, f3⟩
    simp only []
    omega
  · exact ⟨f1, f2, f3⟩

theorem closeBlock_parts (e : Elem) (c : Canvas) :
    c.current_block.idx ≤ (Canvas.closeBlock e c).current_block.idx
    ∧ (Canvas.closeBlock e c).annotations = c.annotations
    ∧ (Canvas.closeBlock e c).openAnnots = c.openAnnots := by
  obtain ⟨-, h2, -, h4, h5⟩ := closeBlock_spec e c
  exact ⟨by rw [h2]; omega, h4, h5⟩

/-- A canvas whose annotation-relevant fields evolved monotonically
keeps the invariant. -/
theorem inv_of_parts (c c' : Canvas) (h : CanvasInv c)
    (hidx : c.current_block.idx ≤ c'.current_block.idx)
    (ha : c'.annotations = c.annotations)
    (ho : c'.openAnnots = c.openAnnots) : CanvasInv c' := by
  constructor
  · rw [ha]; exact h.1
  · intro p hp
    rw [ho] at hp
    exact le_trans (h.2 p hp) hidx

theorem openTag_inv (e : Elem) (c : Canvas) (h : CanvasInv c) :
    CanvasInv (Canvas.openTag e c) := by
  have h1 : CanvasInv (if e.annotations ≠ [] then { c with openAnnots := Canvas.insertA e.uid c.current_block.idx c.openAnnots } else c) := by
    split
    · constructor
      · exact h.1
      · intro p hp
        rcases mem_insertA _ _ _ p hp with hp | hp
        · exact h.2 p hp
        · rw [hp]
    · exact h
  unfold Canvas.openTag
  simp only []
  split
  · obtain ⟨p1, p2, p3⟩ := openBlock_parts e
      (if e.annotations ≠ [] then { c with openAnnots := Canvas.insertA e.uid c.current_block.idx c.openAnnots } else c)
    exact inv_of_parts _ _ h1 p1 p2 p3
  · exact h1

theorem closeTag_inv_inline (e : Elem) (c : Canvas)
    (hd : e.display ≠ Display.block) (h : CanvasInv c) :
    CanvasInv (Canvas.closeTag e c) := by
  unfold Canvas.closeTag
  rw [if_neg hd]
  simp only []
  split
  · exact h
  · next start heq =>
    split
    · next hs =>
      refine ⟨h.1, ?_⟩
      intro p hp
      exact h.2 p (mem_eraseA _ _ _ hp)
    · next hs =>
      refine ⟨?_, ?_⟩
      · intro a ha
        rcases List.mem_append.mp ha with ha | ha
        · exact h.1 a ha
        · obtain ⟨l, -, rfl⟩ := List.mem_map.mp ha
          have hstart : start ≤ c.current_block.idx :=
            h.2 (e.uid, start) (lookupA_le _ _ _ heq)
          simp only []
          omega
      · intro p hp
        exact h.2 p (mem_eraseA _ _ _ hp)

/-- `close_tag` on a block element decomposes into the block phase
(flush, pop the prefix, `close_block`) then the annotation phase. -/
theorem closeTag_decomp (e : Elem) (c : Canvas)
    (hd : e.display = Display.block) :
    Canvas.closeTag e c
      = Canvas.closeTag { e with display := Display.inline }
          (Canvas.closeBlock e { (Canvas.flushInline c).1 with current_block := { (Canvas.flushInline c).1.current_block with pref := (Canvas.flushInline c).1.current_block.pref.removeLast } }) := by
  conv_lhs => unfold Canvas.closeTag
  conv_rhs => unfold Canvas.closeTag
  rw [if_pos hd]
  rw [if_neg (by simp : ({ e with display := Display.inline } : Elem).display ≠ Display.block)]

theorem closeTag_inv (e : Elem) (c : Canvas) (h : CanvasInv c) :
    CanvasInv (Canvas.closeTag e c) := by
  by_cases hd : e.display = Display.block
  · rw [closeTag_decomp e c hd]
    apply closeTag_inv_inline _ _ (by simp)
    have hfl := flushInline_parts c
    have hinv1 : CanvasInv ((Canvas.flushInline c).1) :=
      inv_of_parts _ _ h hfl.1 hfl.2.1 hfl.2.2
    have hinv2 : CanvasInv { (Canvas.flushInline c).1 with current_block := { (Canvas.flushInline c).1.current_block with pref := (Canvas.flushInline c).1.current_block.pref.removeLast } } :=
      inv_of_parts _ _ hinv1 (le_of_eq rfl) rfl rfl
    obtain ⟨p1, p2, p3⟩ := closeBlock_parts e
      { (Canvas.flushInline c).1 with current_block := { (Canvas.flushInline c).1.current_block with pref := (Canvas.flushInline c).1.current_block.pref.removeLast } }
    exact inv_of_parts _ _ hinv2 p1 p2 p3
  · exact closeTag_inv_inline e c hd h

theorem write_inv (e : Elem) (t : String) (ws : Option WhiteSpace)
    (c : Canvas) (h : CanvasInv c) : CanvasInv (Canvas.write e t ws c) := by
  refine inv_of_parts c _ h ?_ rfl rfl
  exact merge_idx_mono c.current_block t _

theorem writeNewline_inv (c : Canvas) (h : CanvasInv c) :
    CanvasInv (Canvas.writeNewline c) := by
  unfold Canvas.writeNewline
  have hfl := flushInline_parts c
  have hinv1 : CanvasInv ((Canvas.flushInline c).1) :=
    inv_of_parts _ _ h hfl.1 hfl.2.1 hfl.2.2
  simp only []
  split
  · exact hinv1
  · refine inv_of_parts _ _ hinv1 ?_ rfl rfl
    simp [Block.newBlock]

theorem runOp_inv (op : CanvasOp) (c : Canvas) (h : CanvasInv c) :
    CanvasInv (runOp op c) := by
  cases op with
  | openT e => exact openTag_inv e c h
  | closeT e => exact closeTag_inv e c h
  | writeOp e t => exact write_inv e t Option.none c h
  | newlineOp => exact writeNewline_inv c h
  | openB e =>
    obtain ⟨p1, p2, p3⟩ := openBlock_parts e c
    exact inv_of_parts _ _ h p1 p2 p3
  | closeB e =>
    obtain ⟨p1, p2, p3⟩ := closeBlock_parts e c
    exact inv_of_parts _ _ h p1 p2 p3

theorem runOps_inv (ops : List CanvasOp) (c : Canvas) (h : CanvasInv c) :
    CanvasInv (runOps ops c) := by
  induction ops generalizing c with
  | nil => exact h
  | cons op rest ih => exact ih (runOp op c) (runOp_inv op c h)

/-- Counterexample for claim C3: an annotated empty block element can
still produce an annotation although no text was written between its
open and its close.  After `<p>x</p>` (flushed, bottom margin 1), an
empty annotated heading with `margin_before = 2` emits one blank margin
line between open and close; the blank line advances the committed
index, so close records the annotation `⟨3, 4, "heading"⟩` even though
no write occurred between the open and the close. -/
theorem c3_counterexample :
    (runOps [CanvasOp.openT c3e1, CanvasOp.writeOp c3e1 "x",
        CanvasOp.closeT c3e1, CanvasOp.openT c3e2, CanvasOp.closeT c3e2]
      Canvas.init).annotations = [Annot.mk 3 4 "heading"] := by
  decide

/-- Claim C3 as amended: every annotation ever recorded by a canvas
operation sequence satisfies `end_idx > start_idx`; when the committed
index at close equals the recorded start index the span is discarded
(no annotation is produced — in particular whenever neither text nor
margin blank lines were committed in between); otherwise exactly one
annotation per label is recorded.  (For block elements the committed
index compared at close is the one after the close's own flush and
bottom margin; the inline case is stated explicitly.) -/
theorem c3_amended :
    (∀ (ops : List CanvasOp), ∀ a ∈ (runOps ops Canvas.init).annotations,
        a.start_idx < a.end_idx)
    ∧ (∀ (c : Canvas) (e : Elem), e.display ≠ Display.block →
        Canvas.lookupA e.uid c.openAnnots = some c.current_block.idx →
        (Canvas.closeTag e c).annotations = c.annotations)
    ∧ (∀ (c : Canvas) (e : Elem) (start : Nat), e.display ≠ Display.block →
        Canvas.lookupA e.uid c.openAnnots = some start →
        start ≠ c.current_block.idx →
        (Canvas.closeTag e c).annotations
          = c.annotations
            ++ e.annotations.map (fun l => Annot.mk start c.current_block.idx l)) := by
  refine ⟨?_, ?_, ?_⟩
  · intro ops a ha
    have hinit : CanvasInv Canvas.init := by
      constructor
      · intro x hx
        simp [Canvas.init] at hx
      · intro p hp
        simp [Canvas.init] at hp
    exact (runOps_inv ops Canvas.init hinit).1 a ha
  · intro c e hd hlk
    unfold Canvas.closeTag
    rw [if_neg hd]
    simp only [hlk]
    simp
  · intro c e start hd hlk hs
    unfold Canvas.closeTag
    rw [if_neg hd]
    simp only [hlk]
    simp [hs]

/-- Witness for claim C3 as amended: a canvas with an open annotation
recorded at the current committed index produces no annotation at
close. -/
theorem c3_amended_witness :
    (Canvas.closeTag c3w c3wCanvas).annotations = c3wCanvas.annotations :=
  c3_amended.2.1 c3wCanvas c3w (by decide) (by decide)

/-! ## Helper lemmas: engine-state primitives -/

theorem ewrite_empty (e : Elem) (s : EngineState) : ewrite e "" s = s := by
  simp [ewrite]

theorem ewrite_none (e : Elem) (t : String) (s : EngineState)
    (h : e.display = Display.none) : ewrite e t s = s := by
  simp [ewrite, h]

theorem ewriteTail_none (e : Elem) (t : String) (s : EngineState)
    (h : e.display = Display.none) : ewriteTail e t s = s := by
  simp [ewriteTail, h]

theorem topTag_modifyTop (s : EngineState) (f : Elem → Elem) :
    (s.modifyTop f).topTag = f s.topTag := by
  simp [EngineState.modifyTop, EngineState.topTag, List.getLastD_concat]

theorem lastTable_modifyLastTable (s : EngineState) (f : Table → Table) :
    (s.modifyLastTable f).lastTable = f s.lastTable := by
  simp [EngineState.modifyLastTable, EngineState.lastTable,
    List.getLastD_concat]

theorem tables_modifyLastTable (s : EngineState) (f : Table → Table) :
    (s.modifyLastTable f).tables = s.tables.dropLast ++ [f s.lastTable] := rfl

/-! ## Helper lemmas: display-none subtrees -/

theorem startA_quiet (cfg : Config) (attrs : List (String × String))
    (s : EngineState) (h : s.topTag.display = Display.none) :
    (startA cfg attrs s).arena = s.arena
    ∧ (startA cfg attrs s).tags = s.tags
    ∧ (startA cfg attrs s).tables = s.tables
    ∧ (startA cfg attrs s).nextUid = s.nextUid := by
  unfold startA
  simp only []
  split <;> split <;> split <;>
    first
      | exact ⟨rfl, rfl, rfl, rfl⟩
      | (rw [ewrite_none] <;> first | exact ⟨rfl, rfl, rfl, rfl⟩ | exact h)

theorem startImg_quiet (cfg : Config) (attrs : List (String × String))
    (s : EngineState) (h : s.topTag.display = Display.none) :
    (startImg cfg attrs s).arena = s.arena
    ∧ (startImg cfg attrs s).tags = s.tags
    ∧ (startImg cfg attrs s).tables = s.tables
    ∧ (startImg cfg attrs s).nextUid = s.nextUid := by
  unfold startImg
  simp only []
  by_cases ha : ((List.lookup "alt" attrs).getD "" : String) ≠ ""
  · rw [if_pos ha]
    split
    · rw [ewrite_none] <;> first | exact ⟨rfl, rfl, rfl, rfl⟩ | exact h
    · exact ⟨rfl, rfl, rfl, rfl⟩
  · rw [if_neg ha]
    split
    · rw [ewrite_none] <;> first | exact ⟨rfl, rfl, rfl, rfl⟩ | exact h
    · exact ⟨rfl, rfl, rfl, rfl⟩

theorem endA_quiet (s : EngineState) (h : s.topTag.display = Display.none) :
    (endA s).arena = s.arena ∧ (endA s).tags = s.tags
    ∧ (endA s).tables = s.tables ∧ (endA s).nextUid = s.nextUid := by
  unfold endA
  split
  · rw [ewrite_none] <;> first | exact ⟨rfl, rfl, rfl, rfl⟩ | exact h
  · exact ⟨rfl, rfl, rfl, rfl⟩

theorem topTag_concat (s : EngineState) (base : List Elem) (t : Elem)
    (h : s.tags = base ++ [t]) : s.topTag = t := by
  simp [EngineState.topTag, h, List.getLastD_concat]

theorem modifyTop_tags (s : EngineState) (f : Elem → Elem)
    (base : List Elem) (t : Elem) (h : s.tags = base ++ [t]) :
    (s.modifyTop f).tags = base ++ [f t] := by
  simp [EngineState.modifyTop, EngineState.topTag, h, List.dropLast_concat,
    List.getLastD_concat]

theorem startLi_shape (s : EngineState) (base : List Elem) (t : Elem)
    (h : s.tags = base ++ [t]) :
    ∃ b : String, (startLi s).tags = base ++ [{ t with list_bullet := b }]
    ∧ (startLi s).arena = s.arena ∧ (startLi s).tables = s.tables
    ∧ (startLi s).nextUid = s.nextUid := by
  cases hbul : (if s.li_level > 0 then s.li_counter.getLastD (LiC.glyph "* ")
      else LiC.glyph "* ") with
  | num n =>
    have hstep : startLi s
        = EngineState.modifyTop { s with li_counter := s.li_counter.dropLast ++ [LiC.num (n + 1)] } (fun e => { e with list_bullet := Nat.repr n ++ ". " }) := by
      unfold startLi
      rw [hbul]
      simp only [ewrite_empty]
    refine ⟨Nat.repr n ++ ". ", ?_, ?_, ?_, ?_⟩ <;> rw [hstep] <;>
      first | exact modifyTop_tags _ _ base t h | rfl
  | glyph g =>
    have hstep : startLi s
        = EngineState.modifyTop s (fun e => { e with list_bullet := g }) := by
      unfold startLi
      rw [hbul]
      simp only [ewrite_empty]
    refine ⟨g, ?_, ?_, ?_, ?_⟩ <;> rw [hstep] <;>
      first | exact modifyTop_tags _ _ base t h | rfl

theorem dispatchStart_none_shape (ctx : Ctx) (tag : String)
    (attrs : List (String × String)) (s : EngineState)
    (base : List Elem) (t : Elem) (hs : s.tags = base ++ [t])
    (hd : t.display = Display.none)
    (hex : ¬(tag = "br" ∨ tag = "table" ∨ tag = "tr" ∨ tag = "td"
        ∨ tag = "th")) :
    ∃ cur : Elem, (dispatchStart ctx tag attrs s).tags = base ++ [cur]
      ∧ cur.display = t.display ∧ cur.canvasId = t.canvasId
      ∧ cur.uid = t.uid
      ∧ (dispatchStart ctx tag attrs s).arena = s.arena
      ∧ (dispatchStart ctx tag attrs s).tables = s.tables
      ∧ (dispatchStart ctx tag attrs s).nextUid = s.nextUid := by
  have htop : s.topTag = t := topTag_concat s base t hs
  have hdisp : s.topTag.display = Display.none := by rw [htop]; exact hd
  push_neg at hex
  obtain ⟨hbr, htab, htr, htd, hth⟩ := hex
  unfold dispatchStart
  rw [if_neg htab, if_neg htr,
    if_neg (by simp [htd, hth] : ¬(tag = "td" ∨ tag = "th"))]
  by_cases hul : tag = "ul"
  · rw [if_pos hul]
    exact ⟨t, by rw [show (startUl s).tags = s.tags from rfl, hs], rfl, rfl,
      rfl, rfl, rfl, rfl⟩
  rw [if_neg hul]
  by_cases hol : tag = "ol"
  · rw [if_pos hol]
    exact ⟨t, by rw [show (startOl s).tags = s.tags from rfl, hs], rfl, rfl,
      rfl, rfl, rfl, rfl⟩
  rw [if_neg hol]
  by_cases hli : tag = "li"
  · rw [if_pos hli]
    obtain ⟨b, l1, l2, l3, l4⟩ := startLi_shape s base t hs
    exact ⟨{ t with list_bullet := b }, l1, rfl, rfl, rfl, l2, l3, l4⟩
  rw [if_neg hli, if_neg hbr]
  by_cases hA : tag = "a" ∧ ctx.cfg.parseA = true
  · rw [if_pos hA]
    obtain ⟨a1, a2, a3, a4⟩ := startA_quiet ctx.cfg attrs s hdisp
    exact ⟨t, by rw [a2, hs], rfl, rfl, rfl, a1, a3, a4⟩
  rw [if_neg hA]
  by_cases hI : tag = "img" ∧ ctx.cfg.display_images = true
  · rw [if_pos hI]
    obtain ⟨a1, a2, a3, a4⟩ := startImg_quiet ctx.cfg attrs s hdisp
    exact ⟨t, by rw [a2, hs], rfl, rfl, rfl, a1, a3, a4⟩
  rw [if_neg hI]
  exact ⟨t, hs, rfl, rfl, rfl, rfl, rfl, rfl⟩

theorem handleStarttag_none (ctx : Ctx) (tag : String)
    (attrs : List (String × String)) (s : EngineState)
    (hd : s.topTag.display = Display.none)
    (hex : ¬(tag = "br" ∨ tag = "table" ∨ tag = "tr" ∨ tag = "td"
        ∨ tag = "th")) :
    ∃ cur : Elem,
      (handleStarttag ctx tag attrs s).tags = s.tags ++ [cur]
      ∧ cur.display = Display.none
      ∧ cur.canvasId = s.topTag.canvasId
      ∧ cur.uid = s.nextUid
      ∧ (handleStarttag ctx tag attrs s).arena = s.arena
      ∧ (handleStarttag ctx tag attrs s).tables = s.tables
      ∧ (handleStarttag ctx tag attrs s).nextUid = s.nextUid + 1 := by
  have hcur0 : s.topTag.refine { cssGet ctx.css tag with tag := tag, uid := s.nextUid }
      = { { cssGet ctx.css tag with tag := tag, uid := s.nextUid } with canvasId := s.topTag.canvasId, display := Display.none } :=
    refine_none _ _ hd
  have hunf : handleStarttag ctx tag attrs s
      = dispatchStart ctx tag attrs { s with tags := s.tags ++ [s.topTag.refine { cssGet ctx.css tag with tag := tag, uid := s.nextUid }], nextUid := s.nextUid + 1 } := rfl
  rw [hunf, hcur0]
  obtain ⟨cur, d1, d2, d3, d4, d5, d6, d7⟩ :=
    dispatchStart_none_shape ctx tag attrs
      { s with tags := s.tags ++ [{ { cssGet ctx.css tag with tag := tag, uid := s.nextUid } with canvasId := s.topTag.canvasId, display := Display.none }], nextUid := s.nextUid + 1 }
      s.tags
      { { cssGet ctx.css tag with tag := tag, uid := s.nextUid } with canvasId := s.topTag.canvasId, display := Display.none }
      rfl rfl hex
  exact ⟨cur, d1, by rw [d2], by rw [d3], by rw [d4], d5, d6, d7⟩

theorem dispatchEnd_none_quiet (ctx : Ctx) (tag : String) (s : EngineState)
    (hd : s.topTag.display = Display.none)
    (hex : ¬(tag = "table" ∨ tag = "td" ∨ tag = "th")) :
    (dispatchEnd ctx tag s).arena = s.arena
    ∧ (dispatchEnd ctx tag s).tags = s.tags
    ∧ (dispatchEnd ctx tag s).tables = s.tables
    ∧ (dispatchEnd ctx tag s).nextUid = s.nextUid := by
  push_neg at hex
  obtain ⟨htab, htd, hth⟩ := hex
  unfold dispatchEnd
  rw [if_neg htab]
  by_cases hul : tag = "ul"
  · rw [if_pos hul]
    exact ⟨rfl, rfl, rfl, rfl⟩
  rw [if_neg hul]
  by_cases hol : tag = "ol"
  · rw [if_pos hol]
    exact ⟨rfl, rfl, rfl, rfl⟩
  rw [if_neg hol,
    if_neg (by simp [htd, hth] : ¬(tag = "td" ∨ tag = "th"))]
  by_cases hA : tag = "a" ∧ ctx.cfg.parseA = true
  · rw [if_pos hA]
    exact endA_quiet s hd
  rw [if_neg hA]
  exact ⟨rfl, rfl, rfl, rfl⟩

theorem openTag_openAnnots (e : Elem) (c : Canvas) (p : Nat × Nat)
    (hp : p ∈ (Canvas.openTag e c).openAnnots) :
    p ∈ c.openAnnots ∨ p = (e.uid, c.current_block.idx) := by
  have hoa : (Canvas.openTag e c).openAnnots
      = (if e.annotations ≠ [] then Canvas.insertA e.uid c.current_block.idx c.openAnnots else c.openAnnots) := by
    unfold Canvas.openTag
    simp only []
    split
    · rw [(openBlock_parts e _).2.2]
      split <;> rfl
    · split <;> rfl
  rw [hoa] at hp
  by_cases ha : e.annotations ≠ []
  · rw [if_pos ha] at hp
    exact mem_insertA _ _ _ p hp
  · rw [if_neg ha] at hp
    exact Or.inl hp

theorem arena_openClose (A : List Canvas) (e : Elem)
    (hd : e.display = Display.none)
    (hf : ∀ p ∈ (A.getD e.canvasId Canvas.init).openAnnots, p.1 ≠ e.uid) :
    ((A.set e.canvasId (Canvas.openTag e (A.getD e.canvasId Canvas.init))).set
        e.canvasId
        (Canvas.closeTag e
          ((A.set e.canvasId
              (Canvas.openTag e (A.getD e.canvasId Canvas.init))).getD
            e.canvasId Canvas.init)))
      = A := by
  by_cases hl : e.canvasId < A.length
  · rw [getD_set_self _ _ _ _ hl, List.set_set,
      closeTag_openTag_none e _ hd hf, set_getD_self]
  · have hge : A.length ≤ e.canvasId := le_of_not_lt hl
    simp [List.set_eq_of_length_le hge]

theorem parseNode_elem_eq (ctx : Ctx) (tag : String)
    (attrs : List (String × String)) (text : String) (children : NodeList)
    (tail : String) (s : EngineState) :
    parseNode ctx (Node.elem tag attrs text children tail) s
      = closePhase ctx tag tail
          (parseNodes ctx children (openPhase ctx tag attrs text s)) := rfl

theorem getD_mem_or {α : Type} (A : List α) (i : Nat) (d : α) :
    A.getD i d ∈ A ∨ A.getD i d = d := by
  by_cases h : i < A.length
  · left
    simp [List.getD, List.getElem?_eq_getElem h]
  · right
    simp [List.getD, List.getElem?_eq_none (le_of_not_lt h)]

theorem openPhase_none (ctx : Ctx) (tag : String)
    (attrs : List (String × String)) (text : String) (s : EngineState)
    (hd : s.topTag.display = Display.none)
    (hex : ¬(tag = "br" ∨ tag = "table" ∨ tag = "tr" ∨ tag = "td"
        ∨ tag = "th")) :
    ∃ cur : Elem,
      (openPhase ctx tag attrs text s).tags = s.tags ++ [cur]
      ∧ cur.display = Display.none
      ∧ cur.uid = s.nextUid
      ∧ (openPhase ctx tag attrs text s).arena
          = s.arena.set cur.canvasId
              (Canvas.openTag cur (s.arena.getD cur.canvasId Canvas.init))
      ∧ (openPhase ctx tag attrs text s).tables = s.tables
      ∧ (openPhase ctx tag attrs text s).nextUid = s.nextUid + 1 := by
  obtain ⟨cur, e1, e2, e3, e4, e5, e6, e7⟩ :=
    handleStarttag_none ctx tag attrs s hd hex
  have htop1 : (handleStarttag ctx tag attrs s).topTag = cur :=
    topTag_concat _ s.tags cur e1
  have hopen : openPhase ctx tag attrs text s
      = onCanvas cur (Canvas.openTag cur) (handleStarttag ctx tag attrs s) := by
    unfold openPhase
    simp only []
    rw [htop1]
    exact ewrite_none _ _ _ (by
      have h2 : (onCanvas cur (Canvas.openTag cur)
          (handleStarttag ctx tag attrs s)).topTag = cur := htop1
      rw [h2, e2])
  refine ⟨cur, ?_, e2, e4, ?_, ?_, ?_⟩ <;> rw [hopen]
  · exact e1
  · show (handleStarttag ctx tag attrs s).arena.set cur.canvasId
        (Canvas.openTag cur
          ((handleStarttag ctx tag attrs s).arena.getD cur.canvasId
            Canvas.init)) = _
    rw [e5]
  · exact e6
  · exact e7

theorem closePhase_none (ctx : Ctx) (tag tail : String) (s4 : EngineState)
    (A : List Canvas) (base : List Elem) (cur : Elem)
    (h4tags : s4.tags = base ++ [cur])
    (e2 : cur.display = Display.none)
    (hbase : (base.getLastD defaultElem).display = Display.none)
    (harena : s4.arena = A.set cur.canvasId
        (Canvas.openTag cur (A.getD cur.canvasId Canvas.init)))
    (hfcur : ∀ p ∈ (A.getD cur.canvasId Canvas.init).openAnnots,
        p.1 ≠ cur.uid)
    (hexE : ¬(tag = "table" ∨ tag = "td" ∨ tag = "th")) :
    (closePhase ctx tag tail s4).arena = A
    ∧ (closePhase ctx tag tail s4).tags = base
    ∧ (closePhase ctx tag tail s4).tables = s4.tables
    ∧ (closePhase ctx tag tail s4).nextUid = s4.nextUid := by
  have htop4 : s4.topTag = cur := topTag_concat s4 base cur h4tags
  obtain ⟨f1, f2, f3, f4⟩ := dispatchEnd_none_quiet ctx tag s4
    (by rw [htop4]; exact e2) hexE
  have hD : handleEndtag ctx tag s4 = dispatchEnd ctx tag s4 := rfl
  have hDtags : (handleEndtag ctx tag s4).tags = base ++ [cur] := by
    rw [hD, f2, h4tags]
  have hDarena : (handleEndtag ctx tag s4).arena = s4.arena := by
    rw [hD, f1]
  have hDtop : (handleEndtag ctx tag s4).topTag = cur :=
    topTag_concat _ base cur hDtags
  have h6tags : ({ handleEndtag ctx tag s4 with
      tags := (handleEndtag ctx tag s4).tags.dropLast } : EngineState).tags
        = base := by
    show (handleEndtag ctx tag s4).tags.dropLast = base
    rw [hDtags, List.dropLast_concat]
  have hclose : closePhase ctx tag tail s4
      = onCanvas cur (Canvas.closeTag cur)
          { handleEndtag ctx tag s4 with
              tags := (handleEndtag ctx tag s4).tags.dropLast } := by
    unfold closePhase
    simp only []
    rw [hDtop]
    exact ewriteTail_none _ _ _ (by
      have hx : (onCanvas cur (Canvas.closeTag cur)
          { handleEndtag ctx tag s4 with
              tags := (handleEndtag ctx tag s4).tags.dropLast }).topTag
            = base.getLastD defaultElem := by
        show ((handleEndtag ctx tag s4).tags.dropLast).getLastD defaultElem = _
        rw [hDtags, List.dropLast_concat]
      rw [hx]
      exact hbase)
  refine ⟨?_, ?_, ?_, ?_⟩ <;> rw [hclose]
  · show (handleEndtag ctx tag s4).arena.set cur.canvasId
        (Canvas.closeTag cur
          ((handleEndtag ctx tag s4).arena.getD cur.canvasId Canvas.init))
        = A
    rw [hDarena, harena]
    exact arena_openClose A cur e2 hfcur
  · exact h6tags
  · show (handleEndtag ctx tag s4).tables = s4.tables
    rw [hD, f3]
  · show (handleEndtag ctx tag s4).nextUid = s4.nextUid
    rw [hD, f4]

mutual
theorem noneNodeAux : ∀ (node : Node) (ctx : Ctx) (s : EngineState),
    s.topTag.display = Display.none → benignNode node = true → UidsFresh s →
    (parseNode ctx node s).arena = s.arena
    ∧ (parseNode ctx node s).tags = s.tags
    ∧ (parseNode ctx node s).tables = s.tables
    ∧ s.nextUid ≤ (parseNode ctx node s).nextUid
  | Node.comment t, ctx, s, hd, hb, hf => ⟨rfl, rfl, rfl, le_refl _⟩
  | Node.elem tag attrs text children tail, ctx, s, hd, hb, hf => by
    have hb' := hb
    unfold benignNode at hb'
    rw [Bool.and_eq_true] at hb'
    obtain ⟨htag, hch⟩ := hb'
    have hex : ¬(tag = "br" ∨ tag = "table" ∨ tag = "tr" ∨ tag = "td"
        ∨ tag = "th") := by
      intro hcon
      rw [Bool.not_eq_true'] at htag
      rcases hcon with h | h | h | h | h <;> simp [h] at htag
    have hexE : ¬(tag = "table" ∨ tag = "td" ∨ tag = "th") := by
      intro hcon
      apply hex
      rcases hcon with h | h | h
      · exact Or.inr (Or.inl h)
      · exact Or.inr (Or.inr (Or.inr (Or.inl h)))
      · exact Or.inr (Or.inr (Or.inr (Or.inr h)))
    obtain ⟨cur, o1, o2, o3, o4, o5, o6⟩ :=
      openPhase_none ctx tag attrs text s hd hex
    have hfresh : UidsFresh (openPhase ctx tag attrs text s) := by
      intro c hc p hp
      rw [o6]
      rw [o4] at hc
      rcases List.mem_or_eq_of_mem_set hc with hc | hceq
      · exact lt_trans (hf c hc p hp) (Nat.lt_succ_self _)
      · rw [hceq] at hp
        rcases openTag_openAnnots cur _ p hp with hp' | hpe
        · rcases getD_mem_or s.arena cur.canvasId Canvas.init with hmem | hinit
          · exact lt_trans (hf _ hmem p hp') (Nat.lt_succ_self _)
          · rw [hinit] at hp'
            simp [Canvas.init] at hp'
        · rw [hpe]
          show cur.uid < s.nextUid + 1
          rw [o3]
          omega
    have htopO : (openPhase ctx tag attrs text s).topTag = cur :=
      topTag_concat _ s.tags cur o1
    obtain ⟨c1, c2, c3, c4⟩ := noneListAux children ctx
      (openPhase ctx tag attrs text s) (by rw [htopO, o2]) hch hfresh
    have h4tags : (parseNodes ctx children
        (openPhase ctx tag attrs text s)).tags = s.tags ++ [cur] := by
      rw [c2, o1]
    have h4arena : (parseNodes ctx children
        (openPhase ctx tag attrs text s)).arena
          = s.arena.set cur.canvasId
              (Canvas.openTag cur (s.arena.getD cur.canvasId Canvas.init)) := by
      rw [c1, o4]
    have hfcur : ∀ p ∈ (s.arena.getD cur.canvasId Canvas.init).openAnnots,
        p.1 ≠ cur.uid := by
      intro p hp
      rcases getD_mem_or s.arena cur.canvasId Canvas.init with hmem | hinit
      · have hlt := hf _ hmem p hp
        rw [o3]
        omega
      · rw [hinit] at hp
        simp [Canvas.init] at hp
    have hbase : (s.tags.getLastD defaultElem).display = Display.none := hd
    obtain ⟨z1, z2, z3, z4⟩ := closePhase_none ctx tag tail
      (parseNodes ctx children (openPhase ctx tag attrs text s))
      s.arena s.tags cur h4tags o2 hbase h4arena hfcur hexE
    rw [parseNode_elem_eq]
    refine ⟨z1, z2, ?_, ?_⟩
    · rw [z3, c3, o5]
    · rw [z4]
      have hc4 := c4
      rw [o6] at hc4
      omega
theorem noneListAux : ∀ (l : NodeList) (ctx : Ctx) (s : EngineState),
    s.topTag.display = Display.none → benignList l = true → UidsFresh s →
    (parseNodes ctx l s).arena = s.arena
    ∧ (parseNodes ctx l s).tags = s.tags
    ∧ (parseNodes ctx l s).tables = s.tables
    ∧ s.nextUid ≤ (parseNodes ctx l s).nextUid
  | NodeList.nil, ctx, s, hd, hb, hf => ⟨rfl, rfl, rfl, le_refl _⟩
  | NodeList.cons n rest, ctx, s, hd, hb, hf => by
    have hb' := hb
    unfold benignList at hb'
    rw [Bool.and_eq_true] at hb'
    obtain ⟨hbn, hbr⟩ := hb'
    obtain ⟨a1, a2, a3, a4⟩ := noneNodeAux n ctx s hd hbn hf
    have hfresh : UidsFresh (parseNode ctx n s) := by
      intro c hc p hp
      rw [a1] at hc
      exact lt_of_lt_of_le (hf c hc p hp) a4
    have htopP : (parseNode ctx n s).topTag = s.topTag := by
      show (parseNode ctx n s).tags.getLastD defaultElem
          = s.tags.getLastD defaultElem
      rw [a2]
    obtain ⟨b1, b2, b3, b4⟩ := noneListAux rest ctx (parseNode ctx n s)
      (by rw [htopP]; exact hd) hbr hfresh
    have hrun : parseNodes ctx (NodeList.cons n rest) s
        = parseNodes ctx rest (parseNode ctx n s) := rfl
    rw [hrun]
    exact ⟨by rw [b1, a1], by rw [b2, a2], by rw [b3, a3], le_trans a4 b4⟩
end

/-! ## Helper lemmas: table-close and canvas isolation -/

theorem map_flatten_eq {α β : Type} (f : α → β) :
    ∀ L : List (List α), (L.flatten).map f = (L.map (fun l => l.map f)).flatten
  | [] => rfl
  | l :: rest => by simp [map_flatten_eq f rest]

theorem getAnnots_shift (arena : List Canvas) (t : Table) (base : Nat) :
    Table.getAnnots arena t base
      = (Table.getAnnots arena t 0).map (shiftAnnot base) := by
  unfold Table.getAnnots
  rw [map_flatten_eq, List.map_map]
  congr 1
  apply List.map_congr_left
  intro p _
  obtain ⟨cell, off⟩ := p
  show _ = (((arena.getD cell.canvasId Canvas.init).flushInline.1.annotations).map
      (fun a => Annot.mk (a.start_idx + off + 0) (a.end_idx + off + 0) a.label)).map
        (shiftAnnot base)
  rw [List.map_map]
  apply List.map_congr_left
  intro a _
  show Annot.mk (a.start_idx + off + base) (a.end_idx + off + base) a.label
      = shiftAnnot base (Annot.mk (a.start_idx + off + 0) (a.end_idx + off + 0) a.label)
  simp only [shiftAnnot, Nat.add_zero]

theorem refine_canvasId (parent n : Elem) :
    (parent.refine n).canvasId = parent.canvasId := by
  unfold Elem.refine
  simp only []
  repeat
    first
      | rfl
      | split

theorem startTable_topTag (s : EngineState) :
    (startTable s).topTag.canvasId = s.arena.length := by
  have h := topTag_modifyTop ({ s with arena := s.arena ++ [Canvas.init] } : EngineState) (fun e => { e with canvasId := s.arena.length })
  calc (startTable s).topTag.canvasId
      = (({ s with arena := s.arena ++ [Canvas.init] } : EngineState).modifyTop (fun e => { e with canvasId := s.arena.length })).topTag.canvasId := rfl
    _ = s.arena.length := by rw [h]

theorem iso3_comp {s1 s2 s3 : EngineState}
    (h12 : s2.arena.getD 0 Canvas.init = s1.arena.getD 0 Canvas.init
      ∧ s2.tags = s1.tags ∧ s2.arena.length = s1.arena.length)
    (h23 : s3.arena.getD 0 Canvas.init = s2.arena.getD 0 Canvas.init
      ∧ s3.tags = s2.tags ∧ s3.arena.length = s2.arena.length) :
    s3.arena.getD 0 Canvas.init = s1.arena.getD 0 Canvas.init
    ∧ s3.tags = s1.tags ∧ s3.arena.length = s1.arena.length :=
  ⟨h23.1.trans h12.1, h23.2.1.trans h12.2.1, h23.2.2.trans h12.2.2⟩

theorem onCanvas_iso (e : Elem) (f : Canvas → Canvas) (s : EngineState)
    (h : e.canvasId ≠ 0) :
    (onCanvas e f s).arena.getD 0 Canvas.init = s.arena.getD 0 Canvas.init
    ∧ (onCanvas e f s).tags = s.tags
    ∧ (onCanvas e f s).arena.length = s.arena.length := by
  refine ⟨getD_set_ne s.arena e.canvasId 0 _ Canvas.init h, rfl, ?_⟩
  show (s.arena.set e.canvasId _).length = s.arena.length
  simp

theorem setCanvas_iso (s : EngineState) (i : Nat) (c : Canvas) (h : i ≠ 0) :
    (s.setCanvas i c).arena.getD 0 Canvas.init = s.arena.getD 0 Canvas.init
    ∧ (s.setCanvas i c).tags = s.tags
    ∧ (s.setCanvas i c).arena.length = s.arena.length := by
  refine ⟨getD_set_ne s.arena i 0 c Canvas.init h, rfl, ?_⟩
  show (s.arena.set i c).length = s.arena.length
  simp

theorem ewrite_iso (e : Elem) (t : String) (s : EngineState)
    (h : e.canvasId ≠ 0) :
    (ewrite e t s).arena.getD 0 Canvas.init = s.arena.getD 0 Canvas.init
    ∧ (ewrite e t s).tags = s.tags
    ∧ (ewrite e t s).arena.length = s.arena.length := by
  unfold ewrite
  split
  · exact ⟨rfl, rfl, rfl⟩
  · exact onCanvas_iso e _ s h

theorem ewriteTail_iso (e : Elem) (t : String) (s : EngineState)
    (h : e.canvasId ≠ 0) :
    (ewriteTail e t s).arena.getD 0 Canvas.init = s.arena.getD 0 Canvas.init
    ∧ (ewriteTail e t s).tags = s.tags
    ∧ (ewriteTail e t s).arena.length = s.arena.length := by
  unfold ewriteTail
  split
  · exact ⟨rfl, rfl, rfl⟩
  · exact ewrite_iso e t s h

theorem writeVerbatim_iso (e : Elem) (t : String) (s : EngineState)
    (h : e.canvasId ≠ 0) :
    (writeVerbatim e t s).arena.getD 0 Canvas.init = s.arena.getD 0 Canvas.init
    ∧ (writeVerbatim e t s).tags = s.tags
    ∧ (writeVerbatim e t s).arena.length = s.arena.length := by
  unfold writeVerbatim
  split
  · exact ⟨rfl, rfl, rfl⟩
  · simp only []
    by_cases hd : e.display = Display.block
    · rw [if_pos hd, if_pos hd]
      exact iso3_comp (iso3_comp (onCanvas_iso e _ s h) (onCanvas_iso e _ _ h))
        (onCanvas_iso e _ _ h)
    · rw [if_neg hd, if_neg hd]
      exact onCanvas_iso e _ s h

theorem newlineH_iso (s : EngineState) (h : s.topTag.canvasId ≠ 0) :
    (newlineH s).arena.getD 0 Canvas.init = s.arena.getD 0 Canvas.init
    ∧ (newlineH s).tags = s.tags
    ∧ (newlineH s).arena.length = s.arena.length :=
  onCanvas_iso s.topTag Canvas.writeNewline s h

theorem endTd_iso (s : EngineState) (h : s.topTag.canvasId ≠ 0) :
    (endTd s).arena.getD 0 Canvas.init = s.arena.getD 0 Canvas.init
    ∧ (endTd s).tags = s.tags
    ∧ (endTd s).arena.length = s.arena.length := by
  unfold endTd
  split
  · exact onCanvas_iso _ _ _ h
  · exact ⟨rfl, rfl, rfl⟩

theorem startTr_iso (s : EngineState) (h : s.topTag.canvasId ≠ 0) :
    (startTr s).arena.getD 0 Canvas.init = s.arena.getD 0 Canvas.init
    ∧ (startTr s).tags = s.tags
    ∧ (startTr s).arena.length = s.arena.length := by
  unfold startTr
  split
  · simp only []
    split
    · exact endTd_iso s h
    · exact ⟨rfl, rfl, rfl⟩
  · exact ⟨rfl, rfl, rfl⟩

theorem startA_iso (cfg : Config) (attrs : List (String × String))
    (s : EngineState) (h : s.topTag.canvasId ≠ 0) :
    (startA cfg attrs s).arena.getD 0 Canvas.init = s.arena.getD 0 Canvas.init
    ∧ (startA cfg attrs s).tags = s.tags
    ∧ (startA cfg attrs s).arena.length = s.arena.length := by
  unfold startA
  simp only []
  split <;> split <;> split <;>
    first
      | exact ⟨rfl, rfl, rfl⟩
      | exact ewrite_iso _ _ _ h

theorem startImg_iso (cfg : Config) (attrs : List (String × String))
    (s : EngineState) (h : s.topTag.canvasId ≠ 0) :
    (startImg cfg attrs s).arena.getD 0 Canvas.init = s.arena.getD 0 Canvas.init
    ∧ (startImg cfg attrs s).tags = s.tags
    ∧ (startImg cfg attrs s).arena.length = s.arena.length := by
  unfold startImg
  simp only []
  by_cases ha : ((List.lookup "alt" attrs).getD "" : String) ≠ ""
  · rw [if_pos ha]
    split
    · exact ewrite_iso _ _ _ h
    · exact ⟨rfl, rfl, rfl⟩
  · rw [if_neg ha]
    split
    · exact ewrite_iso _ _ _ h
    · exact ⟨rfl, rfl, rfl⟩

theorem endA_iso (s : EngineState) (h : s.topTag.canvasId ≠ 0) :
    (endA s).arena.getD 0 Canvas.init = s.arena.getD 0 Canvas.init
    ∧ (endA s).tags = s.tags
    ∧ (endA s).arena.length = s.arena.length := by
  unfold endA
  split
  · exact ewrite_iso _ _ _ h
  · exact ⟨rfl, rfl, rfl⟩

theorem length_ne_zero_of_ne_nil {α : Type} (A : List α) (h : A ≠ []) :
    A.length ≠ 0 := by
  intro h0
  exact h (List.length_eq_zero.mp h0)

theorem ne_nil_of_le_length {α : Type} (A B : List α) (h : A ≠ [])
    (hle : A.length ≤ B.length) : B ≠ [] := by
  intro hnil
  apply h
  rw [hnil] at hle
  simp only [List.length_nil, Nat.le_zero] at hle
  exact List.length_eq_zero.mp hle

theorem startTable_shape (s : EngineState) (base : List Elem) (t : Elem)
    (hs : s.tags = base ++ [t]) (hne : s.arena ≠ []) :
    (startTable s).tags = base ++ [{ t with canvasId := s.arena.length }]
    ∧ (startTable s).arena.getD 0 Canvas.init = s.arena.getD 0 Canvas.init
    ∧ s.arena.length ≤ (startTable s).arena.length := by
  refine ⟨?_, ?_, ?_⟩
  · show (({ s with arena := s.arena ++ [Canvas.init] } : EngineState).modifyTop
        (fun e => { e with canvasId := s.arena.length })).tags = _
    exact modifyTop_tags _ _ base t hs
  · show (s.arena ++ [Canvas.init]).getD 0 Canvas.init = s.arena.getD 0 Canvas.init
    exact getD_append_zero s.arena Canvas.init Canvas.init hne
  · show s.arena.length ≤ (s.arena ++ [Canvas.init]).length
    simp

theorem startTd_shape (s : EngineState) (base : List Elem) (t : Elem)
    (hs : s.tags = base ++ [t]) (ht : t.canvasId ≠ 0) (hne : s.arena ≠ []) :
    ∃ cur : Elem, (startTd s).tags = base ++ [cur] ∧ cur.canvasId ≠ 0
    ∧ (startTd s).arena.getD 0 Canvas.init = s.arena.getD 0 Canvas.init
    ∧ s.arena.length ≤ (startTd s).arena.length := by
  have htop : s.topTag = t := topTag_concat s base t hs
  unfold startTd
  split
  · simp only []
    split
    next hOpen =>
      obtain ⟨e1, e2, e3⟩ := endTd_iso s (by rw [htop]; exact ht)
      have hne1 : (endTd s).arena ≠ [] := ne_nil_of_le_length s.arena _ hne (le_of_eq e3.symm)
      refine ⟨{ t with canvasId := (endTd s).arena.length }, ?_, ?_, ?_, ?_⟩
      · show ((({ endTd s with arena := (endTd s).arena ++ [Canvas.init] } : EngineState).modifyTop
            (fun e => { e with canvasId := (endTd s).arena.length })).modifyLastTable _).tags = _
        show (({ endTd s with arena := (endTd s).arena ++ [Canvas.init] } : EngineState).modifyTop
            (fun e => { e with canvasId := (endTd s).arena.length })).tags = _
        exact modifyTop_tags _ _ base t (by rw [show ({ endTd s with arena := (endTd s).arena ++ [Canvas.init] } : EngineState).tags = (endTd s).tags from rfl, e2, hs])
      · show (endTd s).arena.length ≠ 0
        exact length_ne_zero_of_ne_nil _ hne1
      · show ((endTd s).arena ++ [Canvas.init]).getD 0 Canvas.init = s.arena.getD 0 Canvas.init
        rw [getD_append_zero _ _ _ hne1]
        exact e1
      · show s.arena.length ≤ ((endTd s).arena ++ [Canvas.init]).length
        simp [e3]
    next hClosed =>
      refine ⟨{ t with canvasId := s.arena.length }, ?_, ?_, ?_, ?_⟩
      · show (({ s with arena := s.arena ++ [Canvas.init] } : EngineState).modifyTop
            (fun e => { e with canvasId := s.arena.length })).tags = _
        exact modifyTop_tags _ _ base t hs
      · show s.arena.length ≠ 0
        exact length_ne_zero_of_ne_nil _ hne
      · show (s.arena ++ [Canvas.init]).getD 0 Canvas.init = s.arena.getD 0 Canvas.init
        exact getD_append_zero s.arena Canvas.init Canvas.init hne
      · show s.arena.length ≤ (s.arena ++ [Canvas.init]).length
        simp
  · exact ⟨t, hs, ht, rfl, le_refl _⟩

theorem ite_flush_iso (pTag : Elem) (oT : String) (s : EngineState)
    (hp : pTag.canvasId ≠ 0) :
    (if oT ≠ "" then onCanvas pTag Canvas.writeNewline (ewrite pTag oT s)
        else s).arena.getD 0 Canvas.init = s.arena.getD 0 Canvas.init
    ∧ (if oT ≠ "" then onCanvas pTag Canvas.writeNewline (ewrite pTag oT s)
        else s).tags = s.tags
    ∧ (if oT ≠ "" then onCanvas pTag Canvas.writeNewline (ewrite pTag oT s)
        else s).arena.length = s.arena.length := by
  split
  · exact iso3_comp (ewrite_iso _ _ _ hp) (onCanvas_iso _ _ _ hp)
  · exact ⟨rfl, rfl, rfl⟩

theorem ite_ann_iso (pTag : Elem) (cond : Prop) [Decidable cond]
    (spans : List Annot) (s : EngineState) (hp : pTag.canvasId ≠ 0) :
    (if cond then
        onCanvas pTag (fun c => { c with annotations := c.annotations ++ spans }) s
        else s).arena.getD 0 Canvas.init = s.arena.getD 0 Canvas.init
    ∧ (if cond then
        onCanvas pTag (fun c => { c with annotations := c.annotations ++ spans }) s
        else s).tags = s.tags
    ∧ (if cond then
        onCanvas pTag (fun c => { c with annotations := c.annotations ++ spans }) s
        else s).arena.length = s.arena.length := by
  split
  · exact onCanvas_iso _ _ _ hp
  · exact ⟨rfl, rfl, rfl⟩

set_option maxHeartbeats 400000 in
theorem endTableTail_iso (s : EngineState) (htop : s.topTag.canvasId ≠ 0)
    (hp : ((s.tags.dropLast).getLastD defaultElem).canvasId ≠ 0) :
    (endTableTail s).arena.getD 0 Canvas.init = s.arena.getD 0 Canvas.init
    ∧ (endTableTail s).tags = s.tags
    ∧ (endTableTail s).arena.length = s.arena.length := by
  unfold endTableTail
  simp only []
  refine iso3_comp ?_ (onCanvas_iso _ _ _ hp)
  refine iso3_comp ?_ (ite_ann_iso _ _ _ _ hp)
  refine iso3_comp ?_ (writeVerbatim_iso _ _ _ hp)
  exact iso3_comp (setCanvas_iso _ _ _ htop) (ite_flush_iso _ _ _ hp)

theorem endTable_decomp (s : EngineState) :
    endTable s = if s.tables = [] then s
      else endTableTail (if s.lastTable.td_is_open then endTd s else s) := rfl

theorem endTable_iso (s : EngineState) (htop : s.topTag.canvasId ≠ 0)
    (hp : ((s.tags.dropLast).getLastD defaultElem).canvasId ≠ 0) :
    (endTable s).arena.getD 0 Canvas.init = s.arena.getD 0 Canvas.init
    ∧ (endTable s).tags = s.tags
    ∧ (endTable s).arena.length = s.arena.length := by
  rw [endTable_decomp]
  split
  · exact ⟨rfl, rfl, rfl⟩
  · split
    · obtain ⟨e1, e2, e3⟩ := endTd_iso s htop
      have htop' : (endTd s).topTag.canvasId ≠ 0 := by
        show ((endTd s).tags.getLastD defaultElem).canvasId ≠ 0
        rw [e2]
        exact htop
      have hp' : (((endTd s).tags.dropLast).getLastD defaultElem).canvasId ≠ 0 := by
        rw [e2]
        exact hp
      exact iso3_comp ⟨e1, e2, e3⟩ (endTableTail_iso (endTd s) htop' hp')
    · exact endTableTail_iso s htop hp

theorem dispatchStart_iso (ctx : Ctx) (tag : String)
    (attrs : List (String × String)) (s : EngineState)
    (base : List Elem) (t : Elem) (hs : s.tags = base ++ [t])
    (ht : t.canvasId ≠ 0) (hne : s.arena ≠ []) :
    ∃ cur : Elem, (dispatchStart ctx tag attrs s).tags = base ++ [cur]
      ∧ cur.canvasId ≠ 0
      ∧ (dispatchStart ctx tag attrs s).arena.getD 0 Canvas.init
          = s.arena.getD 0 Canvas.init
      ∧ s.arena.length ≤ (dispatchStart ctx tag attrs s).arena.length := by
  have htop : s.topTag = t := topTag_concat s base t hs
  have htop' : s.topTag.canvasId ≠ 0 := by rw [htop]; exact ht
  unfold dispatchStart
  by_cases hT : tag = "table"
  · rw [if_pos hT]
    obtain ⟨a1, a2, a3⟩ := startTable_shape s base t hs hne
    exact ⟨{ t with canvasId := s.arena.length }, a1,
      length_ne_zero_of_ne_nil _ hne, a2, a3⟩
  rw [if_neg hT]
  by_cases hTr : tag = "tr"
  · rw [if_pos hTr]
    obtain ⟨a1, a2, a3⟩ := startTr_iso s htop'
    exact ⟨t, by rw [a2, hs], ht, a1, le_of_eq a3.symm⟩
  rw [if_neg hTr]
  by_cases hTd : tag = "td" ∨ tag = "th"
  · rw [if_pos hTd]
    exact startTd_shape s base t hs ht hne
  rw [if_neg hTd]
  by_cases hul : tag = "ul"
  · rw [if_pos hul]
    exact ⟨t, by rw [show (startUl s).tags = s.tags from rfl, hs], ht, rfl,
      le_refl _⟩
  rw [if_neg hul]
  by_cases hol : tag = "ol"
  · rw [if_pos hol]
    exact ⟨t, by rw [show (startOl s).tags = s.tags from rfl, hs], ht, rfl,
      le_refl _⟩
  rw [if_neg hol]
  by_cases hli : tag = "li"
  · rw [if_pos hli]
    obtain ⟨b, l1, l2, l3, l4⟩ := startLi_shape s base t hs
    exact ⟨{ t with list_bullet := b }, l1, ht, by rw [l2], le_of_eq (by rw [l2])⟩
  rw [if_neg hli]
  by_cases hbr : tag = "br"
  · rw [if_pos hbr]
    obtain ⟨a1, a2, a3⟩ := newlineH_iso s htop'
    exact ⟨t, by rw [a2, hs], ht, a1, le_of_eq a3.symm⟩
  rw [if_neg hbr]
  by_cases hA : tag = "a" ∧ ctx.cfg.parseA = true
  · rw [if_pos hA]
    obtain ⟨a1, a2, a3⟩ := startA_iso ctx.cfg attrs s htop'
    exact ⟨t, by rw [a2, hs], ht, a1, le_of_eq a3.symm⟩
  rw [if_neg hA]
  by_cases hI : tag = "img" ∧ ctx.cfg.display_images = true
  · rw [if_pos hI]
    obtain ⟨a1, a2, a3⟩ := startImg_iso ctx.cfg attrs s htop'
    exact ⟨t, by rw [a2, hs], ht, a1, le_of_eq a3.symm⟩
  rw [if_neg hI]
  exact ⟨t, hs, ht, rfl, le_refl _⟩

theorem handleStarttag_iso (ctx : Ctx) (tag : String)
    (attrs : List (String × String)) (s : EngineState)
    (ht : s.topTag.canvasId ≠ 0) (hne : s.arena ≠ []) :
    ∃ cur : Elem,
      (handleStarttag ctx tag attrs s).tags = s.tags ++ [cur]
      ∧ cur.canvasId ≠ 0
      ∧ (handleStarttag ctx tag attrs s).arena.getD 0 Canvas.init
          = s.arena.getD 0 Canvas.init
      ∧ s.arena.length ≤ (handleStarttag ctx tag attrs s).arena.length := by
  have hunf : handleStarttag ctx tag attrs s
      = dispatchStart ctx tag attrs { s with tags := s.tags ++ [s.topTag.refine { cssGet ctx.css tag with tag := tag, uid := s.nextUid }], nextUid := s.nextUid + 1 } := rfl
  rw [hunf]
  exact dispatchStart_iso ctx tag attrs _ s.tags _ rfl
    (by rw [refine_canvasId]; exact ht) hne

theorem openPhase_iso (ctx : Ctx) (tag : String)
    (attrs : List (String × String)) (text : String) (s : EngineState)
    (ht : s.topTag.canvasId ≠ 0) (hne : s.arena ≠ []) :
    ∃ cur : Elem,
      (openPhase ctx tag attrs text s).tags = s.tags ++ [cur]
      ∧ cur.canvasId ≠ 0
      ∧ (openPhase ctx tag attrs text s).arena.getD 0 Canvas.init
          = s.arena.getD 0 Canvas.init
      ∧ s.arena.length ≤ (openPhase ctx tag attrs text s).arena.length := by
  obtain ⟨cur, e1, e2, e3, e4⟩ := handleStarttag_iso ctx tag attrs s ht hne
  have htop1 : (handleStarttag ctx tag attrs s).topTag = cur :=
    topTag_concat _ s.tags cur e1
  have hopen : openPhase ctx tag attrs text s
      = ewrite ((onCanvas cur (Canvas.openTag cur)
            (handleStarttag ctx tag attrs s)).topTag) text
          (onCanvas cur (Canvas.openTag cur) (handleStarttag ctx tag attrs s)) := by
    unfold openPhase
    simp only []
    rw [htop1]
  have htop2 : (onCanvas cur (Canvas.openTag cur)
      (handleStarttag ctx tag attrs s)).topTag = cur := htop1
  obtain ⟨o1, o2, o3⟩ := onCanvas_iso cur (Canvas.openTag cur)
    (handleStarttag ctx tag attrs s) e2
  obtain ⟨w1, w2, w3⟩ := ewrite_iso
    ((onCanvas cur (Canvas.openTag cur) (handleStarttag ctx tag attrs s)).topTag)
    text
    (onCanvas cur (Canvas.openTag cur) (handleStarttag ctx tag attrs s))
    (by rw [htop2]; exact e2)
  refine ⟨cur, ?_, e2, ?_, ?_⟩ <;> rw [hopen]
  · rw [w2, o2, e1]
  · rw [w1, o1, e3]
  · rw [w3, o3]
    exact e4

theorem dispatchEnd_iso (ctx : Ctx) (tag : String) (s : EngineState)
    (htop : s.topTag.canvasId ≠ 0)
    (hp : ((s.tags.dropLast).getLastD defaultElem).canvasId ≠ 0) :
    (dispatchEnd ctx tag s).arena.getD 0 Canvas.init
        = s.arena.getD 0 Canvas.init
    ∧ (dispatchEnd ctx tag s).tags = s.tags
    ∧ (dispatchEnd ctx tag s).arena.length = s.arena.length := by
  unfold dispatchEnd
  by_cases hT : tag = "table"
  · rw [if_pos hT]
    exact endTable_iso s htop hp
  rw [if_neg hT]
  by_cases hul : tag = "ul"
  · rw [if_pos hul]
    exact ⟨rfl, rfl, rfl⟩
  rw [if_neg hul]
  by_cases hol : tag = "ol"
  · rw [if_pos hol]
    exact ⟨rfl, rfl, rfl⟩
  rw [if_neg hol]
  by_cases hTd : tag = "td" ∨ tag = "th"
  · rw [if_pos hTd]
    exact endTd_iso s htop
  rw [if_neg hTd]
  by_cases hA : tag = "a" ∧ ctx.cfg.parseA = true
  · rw [if_pos hA]
    exact endA_iso s htop
  rw [if_neg hA]
  exact ⟨rfl, rfl, rfl⟩

theorem closePhase_iso (ctx : Ctx) (tag tail : String) (s4 : EngineState)
    (base : List Elem) (cur : Elem)
    (h4tags : s4.tags = base ++ [cur]) (hcur : cur.canvasId ≠ 0)
    (hbase : (base.getLastD defaultElem).canvasId ≠ 0) :
    (closePhase ctx tag tail s4).arena.getD 0 Canvas.init
        = s4.arena.getD 0 Canvas.init
    ∧ (closePhase ctx tag tail s4).tags = base
    ∧ (closePhase ctx tag tail s4).arena.length = s4.arena.length := by
  have htop4 : s4.topTag = cur := topTag_concat s4 base cur h4tags
  have hp4 : ((s4.tags.dropLast).getLastD defaultElem).canvasId ≠ 0 := by
    rw [h4tags, List.dropLast_concat]
    exact hbase
  obtain ⟨f1, f2, f3⟩ := dispatchEnd_iso ctx tag s4
    (by rw [htop4]; exact hcur) hp4
  have hD : handleEndtag ctx tag s4 = dispatchEnd ctx tag s4 := rfl
  have hDtags : (handleEndtag ctx tag s4).tags = base ++ [cur] := by
    rw [hD, f2, h4tags]
  have hDtop : (handleEndtag ctx tag s4).topTag = cur :=
    topTag_concat _ base cur hDtags
  have hclose : closePhase ctx tag tail s4
      = ewriteTail ((onCanvas cur (Canvas.closeTag cur)
            { handleEndtag ctx tag s4 with
                tags := (handleEndtag ctx tag s4).tags.dropLast }).topTag) tail
          (onCanvas cur (Canvas.closeTag cur)
            { handleEndtag ctx tag s4 with
                tags := (handleEndtag ctx tag s4).tags.dropLast }) := by
    unfold closePhase
    simp only []
    rw [hDtop]
  have htop7 : (onCanvas cur (Canvas.closeTag cur)
      { handleEndtag ctx tag s4 with
          tags := (handleEndtag ctx tag s4).tags.dropLast }).topTag
        = base.getLastD defaultElem := by
    show ((handleEndtag ctx tag s4).tags.dropLast).getLastD defaultElem = _
    rw [hDtags, List.dropLast_concat]
  obtain ⟨o1, o2, o3⟩ := onCanvas_iso cur (Canvas.closeTag cur)
    { handleEndtag ctx tag s4 with
        tags := (handleEndtag ctx tag s4).tags.dropLast } hcur
  obtain ⟨w1, w2, w3⟩ := ewriteTail_iso
    ((onCanvas cur (Canvas.closeTag cur)
        { handleEndtag ctx tag s4 with
            tags := (handleEndtag ctx tag s4).tags.dropLast }).topTag) tail
    (onCanvas cur (Canvas.closeTag cur)
      { handleEndtag ctx tag s4 with
          tags := (handleEndtag ctx tag s4).tags.dropLast })
    (by rw [htop7]; exact hbase)
  refine ⟨?_, ?_, ?_⟩ <;> rw [hclose]
  · rw [w1, o1]
    show (handleEndtag ctx tag s4).arena.getD 0 Canvas.init = _
    rw [hD, f1]
  · rw [w2, o2]
    show (handleEndtag ctx tag s4).tags.dropLast = base
    rw [hDtags, List.dropLast_concat]
  · rw [w3, o3]
    show (handleEndtag ctx tag s4).arena.length = _
    rw [hD, f3]

mutual
theorem isoNodeAux : ∀ (node : Node) (ctx : Ctx) (s : EngineState),
    s.topTag.canvasId ≠ 0 → s.arena ≠ [] →
    (parseNode ctx node s).arena.getD 0 Canvas.init
        = s.arena.getD 0 Canvas.init
    ∧ (parseNode ctx node s).tags = s.tags
    ∧ s.arena.length ≤ (parseNode ctx node s).arena.length
  | Node.comment t, ctx, s, ht, hne => ⟨rfl, rfl, le_refl _⟩
  | Node.elem tag attrs text children tail, ctx, s, ht, hne => by
    obtain ⟨cur, o1, o2, o3, o4⟩ := openPhase_iso ctx tag attrs text s ht hne
    have htopO : (openPhase ctx tag attrs text s).topTag = cur :=
      topTag_concat _ s.tags cur o1
    have hneO : (openPhase ctx tag attrs text s).arena ≠ [] :=
      ne_nil_of_le_length s.arena _ hne o4
    obtain ⟨c1, c2, c3⟩ := isoListAux children ctx
      (openPhase ctx tag attrs text s) (by rw [htopO]; exact o2) hneO
    have h4tags : (parseNodes ctx children
        (openPhase ctx tag attrs text s)).tags = s.tags ++ [cur] := by
      rw [c2, o1]
    obtain ⟨z1, z2, z3⟩ := closePhase_iso ctx tag tail
      (parseNodes ctx children (openPhase ctx tag attrs text s))
      s.tags cur h4tags o2 ht
    rw [parseNode_elem_eq]
    refine ⟨?_, z2, ?_⟩
    · rw [z1, c1, o3]
    · rw [z3]
      exact le_trans o4 c3
theorem isoListAux : ∀ (l : NodeList) (ctx : Ctx) (s : EngineState),
    s.topTag.canvasId ≠ 0 → s.arena ≠ [] →
    (parseNodes ctx l s).arena.getD 0 Canvas.init
        = s.arena.getD 0 Canvas.init
    ∧ (parseNodes ctx l s).tags = s.tags
    ∧ s.arena.length ≤ (parseNodes ctx l s).arena.length
  | NodeList.nil, ctx, s, ht, hne => ⟨rfl, rfl, le_refl _⟩
  | NodeList.cons n rest, ctx, s, ht, hne => by
    obtain ⟨a1, a2, a3⟩ := isoNodeAux n ctx s ht hne
    have htopP : (parseNode ctx n s).topTag = s.topTag := by
      show (parseNode ctx n s).tags.getLastD defaultElem
          = s.tags.getLastD defaultElem
      rw [a2]
    obtain ⟨b1, b2, b3⟩ := isoListAux rest ctx (parseNode ctx n s)
      (by rw [htopP]; exact ht) (ne_nil_of_le_length s.arena _ hne a3)
    have hrun : parseNodes ctx (NodeList.cons n rest) s
        = parseNodes ctx rest (parseNode ctx n s) := rfl
    rw [hrun]
    exact ⟨by rw [b1, a1], by rw [b2, a2], le_trans a3 b3⟩
end

/-! ## Claim C9: annotation-rule parsing -/

/-- Claim C9 is refuted by the code (a code bug): parsing the key
`div#class=toc` — the module docstring's own example — captures
`match_tag = "div#class"` because `_parse` splits the whole key at `=`
(`attr, value = key.split('=')`).  The resulting matcher compares the
element's tag name against `"div#class"`, and no element tag contains
`#`, so the rule never applies its labels; in particular it does not
apply them to a `div` whose `class` attribute contains the token `toc`.
The tagless form `#attr=value` is broken the same way, while a plain
`tag` key accumulates labels for that tag as claimed. -/
theorem c9_attr_rule_bug :
    ((parseAnnModel [("div#class=toc", ["table-of-contents"])]).2 = [tocRule])
    ∧ (∀ (tag attrValue : String), strContains '#' tag = false →
        ApplyAnn.matchesOn tocRule attrValue tag = false)
    ∧ (ApplyAnn.applyTo tocRule "toc" divElem = divElem)
    ∧ ((parseAnnModel [("#class=short-description", ["description"])]).2
        = [ApplyAnn.mk ["description"] (some "#class")
            (some "short-description")])
    ∧ ((parseAnnModel [("h1", ["heading"])]).1 = [("h1", ["heading"])]) := by
  refine ⟨by decide, ?_, by decide, by decide, by decide⟩
  intro tag attrValue hct
  by_cases ht : "div#class" = tag
  · subst ht
    exact absurd hct (by decide)
  · simp [ApplyAnn.matchesOn, tocRule, ht]

/-- Witness for claim C9's theorem: the buggy matcher rejects an actual
`div` element even when the attribute value contains the token. -/
theorem c9_attr_rule_bug_witness :
    ApplyAnn.matchesOn tocRule "toc" "div" = false :=
  c9_attr_rule_bug.2.1 "div" "toc" (by decide)

/-! ## Claim C8: non-string tags -/

/-- Counterexample for claim C8: the traversal's early return for a
node whose tag is not a string (`if not isinstance(tree.tag, str):
return`) drops the node's tail text instead of writing it to the
enclosing element.  Processing a comment node leaves the engine state
entirely unchanged, although writing its tail would have changed the
state; consequently `<div>A<!-- -->B…</div>`, where `B` is the
comment's tail, renders as `"A"` with the tail lost. -/
theorem c8_counterexample :
    parseNode defaultCtx (Node.comment "B") (initState defaultCtx)
        = initState defaultCtx
    ∧ engineText defaultCtx commentTailTree = "A"
    ∧ ewrite (initState defaultCtx).topTag "B" (initState defaultCtx)
        ≠ initState defaultCtx := by
  refine ⟨rfl, by decide, by decide⟩

/-- Claim C8 as amended: a node whose tag is not a string is skipped
entirely without raising — no style resolution, no canvas writes from
the node or its subtree — and its tail text is dropped as well (not
written to the enclosing element): the traversal returns the state
unchanged. -/
theorem c8_amended (ctx : Ctx) (tail : String) (s : EngineState) :
    parseNode ctx (Node.comment tail) s = s := rfl

/-! ## Claim C7: table-cell bookkeeping -/

/-- Closing an open cell flips the open flag of the innermost table and
otherwise touches only the cell's canvas. -/
theorem endTd_state (s : EngineState) (ht : s.tables ≠ [])
    (ho : s.lastTable.td_is_open = true) :
    (endTd s).tables
        = s.tables.dropLast ++ [{ s.lastTable with td_is_open := false }]
    ∧ (endTd s).lastTable.td_is_open = false
    ∧ (endTd s).tables ≠ [] := by
  unfold endTd
  rw [if_pos (by simp [ht, ho])]
  refine ⟨rfl, ?_, ?_⟩
  · show ((s.modifyLastTable fun t => { t with td_is_open := false }).lastTable).td_is_open = false
    rw [lastTable_modifyLastTable]
  · show s.tables.dropLast ++ [{ s.lastTable with td_is_open := false }] ≠ []
    simp

/-- Claim C7 (malformed-markup tolerance of the table machinery).
Without an open table, row-open, cell-open and cell-close are exact
no-ops (total functions returning the state unchanged — nothing is
raised).  With an open table, opening a row or a cell on a state whose
innermost table still has an open cell behaves exactly as if the cell
had been closed first (`_end_td` runs first), and table-close likewise
closes the open cell before rendering; after a row-open no cell is
open, after a cell-open exactly the new cell is marked open — the
single `td_is_open` flag per table means at most one cell is accepting
writes at any time. -/
theorem c7_table_tolerance :
    (∀ s : EngineState, s.tables = [] →
        startTr s = s ∧ startTd s = s ∧ endTd s = s)
    ∧ (∀ s : EngineState, s.tables ≠ [] → s.lastTable.td_is_open = true →
        startTr s = startTr (endTd s)
        ∧ startTd s = startTd (endTd s)
        ∧ endTable s = endTable (endTd s)
        ∧ (endTd s).lastTable.td_is_open = false)
    ∧ (∀ s : EngineState, s.tables ≠ [] →
        (startTr s).lastTable.td_is_open = false
        ∧ (startTd s).lastTable.td_is_open = true) := by
  refine ⟨?_, ?_, ?_⟩
  · intro s h
    refine ⟨?_, ?_, ?_⟩
    · unfold startTr
      rw [if_neg (by simp [h])]
    · unfold startTd
      rw [if_neg (by simp [h])]
    · unfold endTd
      rw [if_neg (by simp [h])]
  · intro s ht ho
    obtain ⟨h1, h2, h3⟩ := endTd_state s ht ho
    refine ⟨?_, ?_, ?_, h2⟩
    · unfold startTr
      rw [if_pos ht, if_pos h3, if_pos ho, if_neg (by simp [h2])]
    · unfold startTd
      rw [if_pos ht, if_pos h3, if_pos ho, if_neg (by simp [h2])]
    · unfold endTable
      rw [if_neg ht, if_neg h3, if_pos ho, if_neg (by simp [h2])]
  · intro s ht
    constructor
    · unfold startTr
      rw [if_pos ht]
      by_cases ho : s.lastTable.td_is_open = true
      · obtain ⟨h1, h2, h3⟩ := endTd_state s ht ho
        rw [if_pos ho]
        simp only [lastTable_modifyLastTable]
        show ((endTd s).lastTable).td_is_open = false
        exact h2
      · rw [if_neg ho]
        simp only [lastTable_modifyLastTable]
        show (s.lastTable).td_is_open = false
        simpa using ho
    · unfold startTd
      rw [if_pos ht]
      by_cases ho : s.lastTable.td_is_open = true
      · rw [if_pos ho]
        simp only [lastTable_modifyLastTable]
      · rw [if_neg ho]
        simp only [lastTable_modifyLastTable]

/-- Witness for claim C7: on a state with one open (cell-less) table,
opening a row leaves no open cell, and opening a cell marks one open;
on the initial state (no table) the three operations are no-ops. -/
theorem c7_table_tolerance_witness :
    ((startTr openTableState).lastTable.td_is_open = false
      ∧ (startTd openTableState).lastTable.td_is_open = true)
    ∧ startTr (initState defaultCtx) = initState defaultCtx :=
  ⟨c7_table_tolerance.2.2 openTableState (by decide),
    (c7_table_tolerance.1 (initState defaultCtx) rfl).1⟩

/-! ## Claims C6 and C10: list bullets -/

/-- Claim C6 (list numbering and bullets).  `_start_ol` pushes the
counter 1 (ordered lists start at 1); a list item over an integer
counter `n` receives the bullet `"n. "` and advances the counter to
`n + 1`, so the k-th item of an ordered list receives `"k. "`;
`_start_ul` at previous depth `d−1` pushes the glyph of index
`(d−1) mod 4`, and consecutive depths always use different glyphs.  On
concrete documents: a three-item ordered list renders `1. `/`2. `/`3. `
and `<ul><li>A</li><li>B</li></ul>` renders exactly `* A\n* B`. -/
theorem c6_list_bullets :
    (∀ s : EngineState, (startOl s).li_counter = s.li_counter ++ [LiC.num 1]
        ∧ (startUl s).li_counter
            = s.li_counter ++ [LiC.glyph (getBullet s.li_level)]
        ∧ (startUl s).li_level = s.li_level + 1)
    ∧ (∀ d : Nat, getBullet d ≠ getBullet (d + 1))
    ∧ (∀ (s : EngineState) (n : Nat) (rest : List LiC),
        0 < s.li_level → s.li_counter = rest ++ [LiC.num n] →
        (startLi s).topTag.list_bullet = Nat.repr n ++ ". "
        ∧ (startLi s).li_counter = rest ++ [LiC.num (n + 1)])
    ∧ engineText defaultCtx olTree3 = "1. A\n2. B\n3. C"
    ∧ engineText defaultCtx ulTree2 = "* A\n* B" := by
  refine ⟨fun s => ⟨rfl, rfl, rfl⟩, ?_, ?_, by decide, by decide⟩
  · intro d
    have h1 : (d + 1) % 4 = (d % 4 + 1) % 4 := by
      conv_lhs => rw [Nat.add_mod]
    have h : d % 4 = 0 ∨ d % 4 = 1 ∨ d % 4 = 2 ∨ d % 4 = 3 := by omega
    unfold getBullet
    rcases h with h | h | h | h <;> rw [h1, h] <;> decide
  · intro s n rest hl hc
    have hbul : (if s.li_level > 0 then s.li_counter.getLastD (LiC.glyph "* ")
        else LiC.glyph "* ") = LiC.num n := by
      rw [if_pos hl, hc, List.getLastD_concat]
    have hstep : startLi s
        = EngineState.modifyTop { s with li_counter := s.li_counter.dropLast ++ [LiC.num (n + 1)] } (fun e => { e with list_bullet := Nat.repr n ++ ". " }) := by
      unfold startLi
      rw [hbul]
      simp only [ewrite_empty]
    rw [hstep]
    constructor
    · rw [topTag_modifyTop]
    · show s.li_counter.dropLast ++ [LiC.num (n + 1)] = _
      rw [hc, List.dropLast_concat]

/-- Witness for claim C6: in a state whose innermost list counter is 3,
the next list item receives the bullet `"3. "` and advances the counter
to 4. -/
theorem c6_list_bullets_witness :
    (startLi { initState defaultCtx with li_level := 1, li_counter := [LiC.num 3] }).topTag.list_bullet = Nat.repr 3 ++ ". "
    ∧ (startLi { initState defaultCtx with li_level := 1, li_counter := [LiC.num 3] }).li_counter = [] ++ [LiC.num 4] :=
  c6_list_bullets.2.2.1
    { initState defaultCtx with li_level := 1, li_counter := [LiC.num 3] }
    3 [] (by decide) rfl

/-- Claim C10 (list item outside any list).  `_start_li` at nesting
level 0 assigns the default bullet `"* "` — no error is raised and no
list state is consumed (the counter stack and the canvases are
untouched); inside a list the bullet is taken from the innermost open
list's entry (here the glyph case; the counter case is the ordered-list
behavior).  The assignment happens inside the start-tag handler, before
the element's text is written, so a bare `<li>X</li>` renders with its
bullet: `"* X"`. -/
theorem c10_li_outside_list :
    (∀ s : EngineState, s.li_level = 0 →
        (startLi s).topTag.list_bullet = "* "
        ∧ (startLi s).arena = s.arena
        ∧ (startLi s).li_counter = s.li_counter)
    ∧ (∀ (s : EngineState) (g : String) (rest : List LiC),
        0 < s.li_level → s.li_counter = rest ++ [LiC.glyph g] →
        (startLi s).topTag.list_bullet = g)
    ∧ engineText defaultCtx bareLiTree = "* X" := by
  refine ⟨?_, ?_, by decide⟩
  · intro s hl
    have hbul : (if s.li_level > 0 then s.li_counter.getLastD (LiC.glyph "* ")
        else LiC.glyph "* ") = LiC.glyph "* " := by
      rw [hl]
      simp
    have hstep : startLi s
        = EngineState.modifyTop s (fun e => { e with list_bullet := "* " }) := by
      unfold startLi
      rw [hbul]
      simp only [ewrite_empty]
    rw [hstep]
    exact ⟨by rw [topTag_modifyTop], rfl, rfl⟩
  · intro s g rest hl hc
    have hbul : (if s.li_level > 0 then s.li_counter.getLastD (LiC.glyph "* ")
        else LiC.glyph "* ") = LiC.glyph g := by
      rw [if_pos hl, hc, List.getLastD_concat]
    have hstep : startLi s
        = EngineState.modifyTop s (fun e => { e with list_bullet := g }) := by
      unfold startLi
      rw [hbul]
      simp only [ewrite_empty]
    rw [hstep, topTag_modifyTop]

/-- Witness for claim C10: in the engine's initial state (list nesting
level 0) a list item receives the default bullet. -/
theorem c10_li_outside_list_witness :
    (startLi (initState defaultCtx)).topTag.list_bullet = "* "
    ∧ (startLi (initState defaultCtx)).arena = (initState defaultCtx).arena
    ∧ (startLi (initState defaultCtx)).li_counter
        = (initState defaultCtx).li_counter :=
  c10_li_outside_list.1 (initState defaultCtx) rfl

/-! ## Claim C4: table close -/

/-- Claim C4: at table-close, stray text accumulated in the table's
private canvas is flushed into the parent as a preceding paragraph, the
rendered grid is written verbatim at the parent's committed index, every
in-table annotation is translated by exactly that index, the table
element's own labels span exactly the inserted block, and content inside
the table touches only private canvases — the surrounding flow (arena
slot 0) is unchanged by any subtree processed under a privately
redirected element, so only the single table-close flush reaches it.
Concretely, `<body><table>stray<tr><td>A</td><td>B</td></tr></table>`
renders `"stray\nA  B"` with the table label spanning the grid
(6 to 10) and each cell label shifted by the insertion index 6. -/
theorem c4_table_close :
    (∀ (arena : List Canvas) (t : Table) (base : Nat),
        Table.getAnnots arena t base
          = (Table.getAnnots arena t 0).map (shiftAnnot base))
    ∧ (∀ s : EngineState, s.arena ≠ [] →
        (startTable s).topTag.canvasId = s.arena.length
        ∧ (startTable s).topTag.canvasId ≠ 0)
    ∧ (∀ (ctx : Ctx) (node : Node) (s : EngineState),
        s.topTag.canvasId ≠ 0 → s.arena ≠ [] →
        (parseNode ctx node s).arena.getD 0 Canvas.init
            = s.arena.getD 0 Canvas.init
        ∧ (parseNode ctx node s).tags = s.tags)
    ∧ engineText defaultCtx c4tree = "stray\nA  B"
    ∧ engineAnnots ctxAnnTable c4tree
        = [Annot.mk 6 10 "tbl", Annot.mk 6 8 "cell", Annot.mk 9 11 "cell"] := by
  refine ⟨getAnnots_shift, ?_, ?_, by decide, by decide⟩
  · intro s hne
    refine ⟨startTable_topTag s, ?_⟩
    rw [startTable_topTag s]
    exact length_ne_zero_of_ne_nil _ hne
  · intro ctx node s ht hne
    obtain ⟨a1, a2, -⟩ := isoNodeAux node ctx s ht hne
    exact ⟨a1, a2⟩

/-- Witness for claim C4: the redirect fact at the engine's initial
state, and subtree isolation for a concrete `td` subtree processed
under the table's private canvas. -/
theorem c4_table_close_witness :
    ((startTable (initState defaultCtx)).topTag.canvasId = 1
      ∧ (startTable (initState defaultCtx)).topTag.canvasId ≠ 0)
    ∧ ((parseNode defaultCtx (Node.elem "td" [] "Z" NodeList.nil "w")
          insideTableState).arena.getD 0 Canvas.init
        = insideTableState.arena.getD 0 Canvas.init
      ∧ (parseNode defaultCtx (Node.elem "td" [] "Z" NodeList.nil "w")
          insideTableState).tags = insideTableState.tags) :=
  ⟨c4_table_close.2.1 (initState defaultCtx) (by decide),
   c4_table_close.2.2.1 defaultCtx (Node.elem "td" [] "Z" NodeList.nil "w")
     insideTableState (by decide) (by decide)⟩

/-! ## Claim C2: display:none suppression -/

/-- Counterexample for claim C2: a `br` inside a `display:none` subtree
still writes to the canvas, because the `br` handler calls
`write_newline` without consulting the element's display.  The document
`<body>x<head><br/></head>y</body>` (with `head` hidden) renders
`"x\ny"`, while the same document with plain (suppressed) text inside
the hidden subtree renders `"xy"`: the hidden subtree contributed a
line-break character, refuting "zero characters … regardless of nested
tag behavior (… line breaks …)". -/
theorem c2_counterexample :
    engineText defaultCtx hiddenBrTree = "x\ny"
    ∧ engineText defaultCtx hiddenFlatTree = "xy"
    ∧ ("x\ny" : String) ≠ "xy" := by
  refine ⟨by decide, by decide, by decide⟩

/-- Claim C2 as amended.  Refinement against a `display:none` parent
forces `display:none` onto the child before any other field is
computed (only the canvas reference is also copied).  And an element
whose refined style is `display:none` contributes nothing: processing
any of its subtrees leaves every canvas (text, committed index and
annotations), the tag stack and the table stack exactly unchanged —
provided the subtree contains none of the tags whose handlers write to
the canvas bypassing the display check (`br`, and the table-structure
tags `table`/`tr`/`td`/`th`).  Links and images are covered: their
handlers' writes go through the element and are suppressed. -/
theorem c2_display_none :
    (∀ (parent n : Elem), parent.display = Display.none →
        parent.refine n
          = { n with canvasId := parent.canvasId, display := Display.none })
    ∧ (∀ (ctx : Ctx) (node : Node) (s : EngineState),
        s.topTag.display = Display.none → benignNode node = true →
        UidsFresh s →
        (parseNode ctx node s).arena = s.arena
        ∧ (parseNode ctx node s).tags = s.tags
        ∧ (parseNode ctx node s).tables = s.tables) := by
  refine ⟨refine_none, ?_⟩
  intro ctx node s hd hb hf
  obtain ⟨a1, a2, a3, -⟩ := noneNodeAux node ctx s hd hb hf
  exact ⟨a1, a2, a3⟩

/-- Witness for claim C2 as amended: under a hidden top element, an
annotated-free span with text and tail leaves the arena, tag stack and
table stack unchanged. -/
theorem c2_display_none_witness :
    (parseNode defaultCtx (Node.elem "span" [] "secret" NodeList.nil "t")
        hiddenTopState).arena = hiddenTopState.arena
    ∧ (parseNode defaultCtx (Node.elem "span" [] "secret" NodeList.nil "t")
        hiddenTopState).tags = hiddenTopState.tags
    ∧ (parseNode defaultCtx (Node.elem "span" [] "secret" NodeList.nil "t")
        hiddenTopState).tables = hiddenTopState.tables :=
  c2_display_none.2 defaultCtx
    (Node.elem "span" [] "secret" NodeList.nil "t") hiddenTopState
    (by decide) (by decide)
    (by
      intro c hc p hp
      simp only [hiddenTopState, initState, List.mem_singleton] at hc
      subst hc
      simp [Canvas.init] at hp)

end Inscriptis
